import Mathlib

/-!
Verification of the WOFF2 test-suite generator's core binary codec
(`generators/testCaseGeneratorLib/woff.py` and the collection resolver in
`generators/testCaseGeneratorLib/sfnt.py`).

Byte strings are modelled as `List Nat`, each element a byte value.
Python's `struct.pack` range checks are modelled by `Option` where a
caller can actually violate them; big-endian 16-bit packing of possibly
negative values follows Python 2's masking behaviour (`v % 2^16`).
-/

namespace Woff2

/-- Big-endian bytes of an unsigned 16-bit value, `struct.pack(">H", n)`
for `0 ≤ n < 65536`; Python 2 masks out-of-range values modulo 2^16
(standard-size formats warn and mask). -/
def packUInt16 (n : Int) : List Nat :=
  [((n % 65536).toNat) / 256, ((n % 65536).toNat) % 256]

/-- Big-endian bytes of a signed 16-bit value, `struct.pack(">h", n)`:
two's complement, modelled as masking modulo 2^16. -/
def packInt16 (n : Int) : List Nat :=
  packUInt16 n

/-- Translation of `woff.py` `pack255UInt16` (lines 104-119).  `n` is an
arbitrary Python integer; `struct.pack(">B", n)` fails outside `0..255`
and `">H"` outside `0..65535`, and when no branch assigns `ret` the
Python function raises `UnboundLocalError`; both failure modes are
`none`. -/
def pack255UInt16 (n : Int) (alternate : Nat) : Option (List Nat) :=
  if n < 253 then
    if 0 ≤ n then some [n.toNat] else none
  else if n < 506 then
    some [255, (n - 253).toNat]
  else if n < 762 then
    if alternate = 0 then some [254, (n - 506).toNat]
    else if alternate = 1 ∨ 508 < n then some [253, n.toNat / 256, n.toNat % 256]
    else if alternate = 2 then some [255, (n - 253).toNat]
    else none
  else if n < 65536 then
    some [253, n.toNat / 256, n.toNat % 256]
  else none

/-- Modelled from the spec: the reference 255UInt16 decoder (the repository
ships no decoder under `src/`; the verifier invokes an external tool).  A
value below 253 is one literal byte, `[255, b]` decodes to `253 + b`,
`[254, b]` to `506 + b`, and `[253, hi, lo]` is a literal big-endian
16-bit escape. -/
def decode255UInt16 : List Nat → Option Nat
  | [253, hi, lo] => if hi < 256 ∧ lo < 256 then some (256 * hi + lo) else none
  | [254, b] => if b < 256 then some (506 + b) else none
  | [255, b] => if b < 256 then some (253 + b) else none
  | [b] => if b < 253 then some b else none
  | _ => none

/-- Translation of `woff.py` `base128Size` (lines 352-357): number of
base-128 digits of `n`. -/
def base128Size (n : Nat) : Nat :=
  if h : n < 128 then 1 else 1 + base128Size (n >>> 7)
decreasing_by
  simp only [Nat.shiftRight_eq_div_pow]
  omega

/-- Translation of `woff.py` `packBase128` (lines 359-369): big-endian
base-128 bytes of `n`, continuation bit on all but the last byte; the
`bug` flag prepends a spurious `0x80` byte. -/
def packBase128 (n : Nat) (bug : Bool) : List Nat :=
  (if bug then [0x80] else []) ++
    (List.range (base128Size n)).map (fun i =>
      let b := (n >>> (7 * (base128Size n - i - 1))) &&& 0x7f
      if i < base128Size n - 1 then b ||| 0x80 else b)

/-- Modelled from the spec: the reference UIntBase128 decoder (no decoder
ships under `src/`); it accumulates 7 value bits per byte, most
significant byte first. -/
def decodeBase128 (bs : List Nat) : Nat :=
  bs.foldl (fun acc b => acc * 128 + (b &&& 0x7f)) 0

/-- The value-bit bytes of the base-128 encoding, without continuation
bits; used to factor the round-trip proof. -/
def base128Digits (s n : Nat) : List Nat :=
  (List.range s).map (fun i => (n >>> (7 * (s - i - 1))) &&& 0x7f)

/-- A glyph's horizontal metrics: the `(advance, lsb)` pair from
`hmtx.metrics` plus the glyph's `glyf` record `xMin` attribute when it
has one (`hasattr(glyf[name], "xMin")` in `woff.py` lines 300/316). -/
structure HmtxGlyph where
  advance : Int
  lsb : Int
  xMin : Option Int
deriving DecidableEq

/-- The slice of a font that `transformHmtx` reads: `hmtx.metrics` in
iteration order, `hhea.numberOfHMetrics` and `maxp.numGlyphs`. -/
structure HmtxFont where
  glyphs : List HmtxGlyph
  numberOfHMetrics : Nat
  numGlyphs : Nat
deriving DecidableEq

/-- The `xMin` a glyph contributes in `transformHmtx`: 0 when the glyph
record has no `xMin` attribute (`woff.py` lines 299-301). -/
def glyphXMin (g : HmtxGlyph) : Int :=
  g.xMin.getD 0

/-- Modelled from the spec: the original `hmtx` table bytes
(`font.getTableData("hmtx")`, produced by the external SFNT table
source).  Standard layout: one 4-byte `advance`/`lsb` record per glyph
within `numberOfHMetrics`, then a 2-byte left-side bearing per remaining
glyph. -/
def compileHmtx (f : HmtxFont) : List Nat :=
  ((f.glyphs.take f.numberOfHMetrics).map
      (fun g => packUInt16 g.advance ++ packInt16 g.lsb)).join ++
    ((f.glyphs.drop f.numberOfHMetrics).map (fun g => packInt16 g.lsb)).join

/-- Translation of `woff.py` `transformHmtx` (lines 289-350).  The first
loop returns the original data on the first `lsb != xMin` mismatch; the
`|=` writes into `flags` are sums of the disjoint bits 1 and 2; the
final `assert len(data) < len(origData)` is the `none` case.  Negative
`lsb` values packed with `">H"` mask modulo 2^16 as in Python 2. -/
def transformHmtx (f : HmtxFont) : Option (List Nat) :=
  let origData := compileHmtx f
  if f.glyphs.any (fun g => decide (g.lsb ≠ glyphXMin g)) then
    some origData
  else
    let hasLeftSideBearing : Bool := decide (f.numberOfHMetrics ≠ f.numGlyphs)
    let hasLsb : Bool :=
      (f.glyphs.take f.numberOfHMetrics).any (fun g => decide (g.lsb ≠ glyphXMin g))
    let flags : Nat := (if hasLsb then 0 else 1) + (if hasLeftSideBearing then 0 else 2)
    let data := flags ::
      (((f.glyphs.take f.numberOfHMetrics).map (fun g => packUInt16 g.advance)).join ++
        (if hasLsb then
          ((f.glyphs.take f.numberOfHMetrics).map (fun g => packUInt16 g.lsb)).join
        else []) ++
        (if hasLeftSideBearing then
          ((f.glyphs.drop f.numberOfHMetrics).map (fun g => packUInt16 g.lsb)).join
        else []))
    if data.length < origData.length then some data else none

/-- Concrete two-glyph font whose LSBs all equal their xMins while
`numberOfHMetrics < numGlyphs`; exhibits the hmtx flag-bit behaviour. -/
def hmtxFontC2 : HmtxFont :=
  { glyphs := [⟨500, 10, some 10⟩, ⟨400, 20, some 20⟩],
    numberOfHMetrics := 1,
    numGlyphs := 2 }

/-- Concrete font with `numberOfHMetrics = 0`: the hmtx transform's
length assertion fails on it. -/
def hmtxFontZero : HmtxFont :=
  { glyphs := [⟨500, 0, some 0⟩],
    numberOfHMetrics := 0,
    numGlyphs := 1 }

/-- A glyph bounding box, the `(xMin, yMin, xMax, yMax)` quadruple. -/
structure BBox where
  xMin : Int
  yMin : Int
  xMax : Int
  yMax : Int
deriving DecidableEq

/-- Translation of fontTools `calcIntBounds` as used at `woff.py` line
258: the tight bounds of a coordinate list, `(0, 0, 0, 0)` when the list
is empty (integer coordinates round to themselves). -/
def calcIntBounds (coords : List (Int × Int)) : BBox :=
  match coords with
  | [] => ⟨0, 0, 0, 0⟩
  | c :: rest =>
    ⟨(rest.map Prod.fst).foldl min c.1, (rest.map Prod.snd).foldl min c.2,
     (rest.map Prod.fst).foldl max c.1, (rest.map Prod.snd).foldl max c.2⟩

/-- The bbox-stream record of a glyph:
`struct.pack(">hhhh", xMin, yMin, xMax, yMax)` (`woff.py` line 266). -/
def packBBoxBytes (b : BBox) : List Nat :=
  packInt16 b.xMin ++ packInt16 b.yMin ++ packInt16 b.xMax ++ packInt16 b.yMax

/-- Translation of `woff.py` `packTriplet` (lines 121-165).  The final
`else` branch packs `absX >> 8` and `absY >> 8` with `">B"`, which
`struct` rejects for values ≥ 65536; that failure is `none`.  All other
branches produce bytes in range by their masks. -/
def packTriplet (x y : Int) (onCurve : Bool) : Option (List Nat × List Nat) :=
  let absX := x.natAbs
  let absY := y.natAbs
  let onCurveBit : Nat := if onCurve then 0 else 128
  let xSignBit : Nat := if 0 < x then 1 else 0
  let ySignBit : Nat := if 0 < y then 1 else 0
  let xySignBits := xSignBit + 2 * ySignBit
  if x = 0 ∧ absY < 1280 then
    some ([onCurveBit + ((absY &&& 0xf00) >>> 7) + ySignBit], [absY &&& 0xff])
  else if y = 0 ∧ absX < 1280 then
    some ([onCurveBit + 10 + ((absX &&& 0xf00) >>> 7) + xSignBit], [absX &&& 0xff])
  else if absX < 65 ∧ absY < 65 then
    some ([onCurveBit + 20 + ((absX - 1) &&& 0x30) + (((absY - 1) &&& 0x30) >>> 2) +
        xySignBits],
      [(((absX - 1) &&& 0xf) <<< 4) ||| ((absY - 1) &&& 0xf)])
  else if absX < 769 ∧ absY < 769 then
    some ([onCurveBit + 84 + 12 * (((absX - 1) &&& 0x300) >>> 8) +
        (((absY - 1) &&& 0x300) >>> 6) + xySignBits],
      [(absX - 1) &&& 0xff, (absY - 1) &&& 0xff])
  else if absX < 4096 ∧ absY < 4096 then
    some ([onCurveBit + 120 + xySignBits],
      [absX >>> 4, ((absX &&& 0xf) <<< 4) ||| (absY >>> 8), absY &&& 0xff])
  else if absX < 65536 ∧ absY < 65536 then
    some ([onCurveBit + 124 + xySignBits],
      [absX >>> 8, absX &&& 0xff, absY >>> 8, absY &&& 0xff])
  else
    none

/-- Sign application for the triplet decoder: a sign bit of 1 means
positive. -/
def tsgn (bit : Nat) (m : Nat) : Int :=
  if bit = 1 then (m : Int) else -(m : Int)

/-- Modelled from the spec: the reference triplet decoder (no decoder
ships under `src/`; the verifier invokes an external tool).  It inverts
the WOFF2 triplet classes: the flag byte's low 7 bits select the class
and carry the sign and high magnitude bits, the data bytes carry the
remaining magnitude bits, and bit 7 of the flag byte is the off-curve
marker. -/
def decodeTriplet (flags data : List Nat) : Option (Int × Int × Bool) :=
  match flags, data with
  | [f], [d0] =>
    let oc := decide (f < 128)
    let b := f % 128
    if b < 10 then
      some (0, tsgn (b % 2) (b / 2 * 256 + d0), oc)
    else if b < 20 then
      some (tsgn (b % 2) ((b - 10) / 2 * 256 + d0), 0, oc)
    else if b < 84 then
      let q := b - 20
      some (tsgn (q % 2) (16 * (q / 16) + d0 / 16 + 1),
            tsgn (q % 4 / 2) (16 * (q % 16 / 4) + d0 % 16 + 1), oc)
    else none
  | [f], [d0, d1] =>
    let oc := decide (f < 128)
    let b := f % 128
    if 84 ≤ b ∧ b < 120 then
      let q := b - 84
      some (tsgn (q % 2) (256 * (q / 12) + d0 + 1),
            tsgn (q % 4 / 2) (256 * (q % 12 / 4) + d1 + 1), oc)
    else none
  | [f], [d0, d1, d2] =>
    let oc := decide (f < 128)
    let b := f % 128
    if 120 ≤ b ∧ b < 124 then
      let q := b - 120
      some (tsgn (q % 2) (16 * d0 + d1 / 16),
            tsgn (q % 4 / 2) (256 * (d1 % 16) + d2), oc)
    else none
  | [f], [d0, d1, d2, d3] =>
    let oc := decide (f < 128)
    let b := f % 128
    if 124 ≤ b then
      let q := b - 124
      some (tsgn (q % 2) (256 * d0 + d1), tsgn (q % 4 / 2) (256 * d2 + d3), oc)
    else none
  | _, _ => none

/-- A simple (possibly empty) glyph record as `transformGlyf` reads it:
`endPtsOfContours`, flat `coordinates`, per-point `flags` (bit 0 =
on-curve), instruction bytecode and the stored bounding box. -/
structure SimpleGlyph where
  endPtsOfContours : List Nat
  coordinates : List (Int × Int)
  pointFlags : List Nat
  instructions : List Nat
  bbox : BBox
deriving DecidableEq

/-- A glyph as `transformGlyf` dispatches on it: `numberOfContours = 0`
is a simple glyph with no contours, composite glyphs carry precompiled
component records (`component.compile` is external fontTools code), an
optional instruction program, and the stored bounding box. -/
inductive Glyph where
  | simple (s : SimpleGlyph)
  | composite (components : List (List Nat)) (program : Option (List Nat)) (bbox : BBox)
deriving DecidableEq

/-- Number of points the nested loops of `woff.py` lines 230-241 visit:
`endPtsOfContours[-1] + 1` (0 for no contours).  For a well-formed glyph
(strictly increasing end points ending at `len(coordinates) - 1`) this
is the whole coordinate array. -/
def totalPoints (s : SimpleGlyph) : Nat :=
  match s.endPtsOfContours.getLast? with
  | some e => e + 1
  | none => 0

/-- The `nPointsStream` loop of `woff.py` lines 210-224: per contour the
point count `endPtsOfContours[i] - lastPointIndex + (i == 0)` is packed
with `pack255UInt16`, and the alternate-representation counter advances
on each 506-point contour when `alt255UInt16` is set (the asserts of
lines 215-221 recheck the three fixed encodings and cannot fail). -/
def nPointsGo (alt255 : Bool) : List Nat → Nat → Nat → Bool → Option (List Nat)
  | [], _, _, _ => some []
  | e :: rest, lastIdx, altc, first => do
      let nPts : Int := (e : Int) - (lastIdx : Int) + (if first then 1 else 0)
      let bytes ← pack255UInt16 nPts altc
      let altc2 := if nPts = 506 ∧ alt255 then altc + 1 else altc
      let tail ← nPointsGo alt255 rest e altc2 false
      pure (bytes ++ tail)

/-- The flag/glyph stream loop of `woff.py` lines 227-241: coordinate
deltas from the running `(lastX, lastY)` packed as triplets, flag bytes
and data bytes concatenated separately. -/
def tripletStream : List ((Int × Int) × Nat) → Int → Int → Option (List Nat × List Nat)
  | [], _, _ => some ([], [])
  | (c, fl) :: rest, lastX, lastY => do
      let p ← packTriplet (c.1 - lastX) (c.2 - lastY) (decide (fl &&& 1 ≠ 0))
      let t ← tripletStream rest c.1 c.2
      pure (p.1 ++ t.1, p.2 ++ t.2)

/-- One glyph's contribution to the seven streams of the transformed
`glyf` table, plus its bbox-bitmap bit. -/
structure GlyphContribution where
  nContour : List Nat
  nPoints : List Nat
  flagS : List Nat
  glyphS : List Nat
  compositeS : List Nat
  instr : List Nat
  bboxBit : Bool
  bboxBytes : List Nat
deriving DecidableEq

/-- Translation of the per-glyph body of `transformGlyf` (`woff.py`
lines 184-266): the `continue` for zero-contour glyphs (after the
`glyphBBox == "empty"` fixture write), the composite stream, the
nPoints/flag/glyph streams for simple glyphs, the instruction length and
bytes, and the bbox write decision
(`oldBounds != newBounds` for simple glyphs,
`glyphBBox != "nocomposite"` for composites). -/
def processGlyph (g : Glyph) (glyphBBox : String) (alt255 : Bool) :
    Option GlyphContribution :=
  match g with
  | .simple s =>
    if s.endPtsOfContours.length = 0 then
      if glyphBBox = "empty" then
        some { nContour := packInt16 0, nPoints := [], flagS := [], glyphS := [],
               compositeS := [], instr := [], bboxBit := true,
               bboxBytes := packInt16 0 ++ packInt16 0 ++ packInt16 0 ++ packInt16 0 }
      else
        some { nContour := packInt16 0, nPoints := [], flagS := [], glyphS := [],
               compositeS := [], instr := [], bboxBit := false, bboxBytes := [] }
    else do
      let nP ← nPointsGo alt255 s.endPtsOfContours 0 0 true
      let fg ← tripletStream ((s.coordinates.zip s.pointFlags).take (totalPoints s)) 0 0
      let iLen ← pack255UInt16 (s.instructions.length : Int) (if alt255 then 1 else 0)
      let writeBBox := decide (s.bbox ≠ calcIntBounds s.coordinates)
      some { nContour := packInt16 (s.endPtsOfContours.length : Int),
             nPoints := nP, flagS := fg.1, glyphS := fg.2 ++ iLen, compositeS := [],
             instr := s.instructions, bboxBit := writeBBox,
             bboxBytes := if writeBBox then packBBoxBytes s.bbox else [] }
  | .composite comps program bb => do
      let iPart ←
        match program with
        | some instrs => do
            let iLen ← pack255UInt16 (instrs.length : Int) (if alt255 then 1 else 0)
            pure (iLen, instrs)
        | none => pure (([] : List Nat), ([] : List Nat))
      let writeBBox := decide (glyphBBox ≠ "nocomposite")
      some { nContour := packInt16 (-1), nPoints := [], flagS := [],
             glyphS := iPart.1, compositeS := comps.join, instr := iPart.2,
             bboxBit := writeBBox,
             bboxBytes := if writeBBox then packBBoxBytes bb else [] }

/-- Concrete one-point simple glyph whose stored bbox equals its
recomputed bbox. -/
def glyfSimpleW : SimpleGlyph :=
  { endPtsOfContours := [0], coordinates := [(1, 2)], pointFlags := [1],
    instructions := [], bbox := ⟨1, 2, 1, 2⟩ }

/-- Concrete empty glyph (zero contours) with an all-zero stored bbox. -/
def emptyGlyphC3 : SimpleGlyph :=
  { endPtsOfContours := [], coordinates := [], pointFlags := [],
    instructions := [], bbox := ⟨0, 0, 0, 0⟩ }

/-- The stream contribution of `glyfSimpleW` under default flags. -/
def glyfSimpleWC : GlyphContribution :=
  ⟨[0, 1], [1], [23], [1, 0], [], [], false, []⟩

/-- The stream contribution of a one-component composite glyph with bbox
`(0, 0, 5, 5)` under default flags. -/
def glyfCompWC : GlyphContribution :=
  ⟨[255, 255], [], [], [], [7, 7], [], true, [0, 0, 0, 0, 0, 5, 0, 5]⟩

/-- The stream contribution of `emptyGlyphC3` under `glyphBBox = "empty"`. -/
def emptyGlyphC3C : GlyphContribution :=
  ⟨[0, 0], [], [], [], [], [], true, [0, 0, 0, 0, 0, 0, 0, 0]⟩

/-- A 4-character table tag as its byte list (Python 2 strings are byte
strings; the tags are ASCII). -/
def t4 (s : String) : List Nat := s.data.map Char.toNat

/-- Translation of the `knownTableTags` tuple of `woff.py` lines 65-73;
the order is the wire contract for the directory flag byte. -/
def knownTableTags : List (List Nat) :=
  [t4 "cmap", t4 "head", t4 "hhea", t4 "hmtx", t4 "maxp", t4 "name", t4 "OS/2",
   t4 "post", t4 "cvt ", t4 "fpgm", t4 "glyf", t4 "loca", t4 "prep", t4 "CFF ",
   t4 "VORG", t4 "EBDT", t4 "EBLC", t4 "gasp", t4 "hdmx", t4 "kern", t4 "LTSH",
   t4 "PCLT", t4 "VDMX", t4 "vhea", t4 "vmtx", t4 "BASE", t4 "GDEF", t4 "GPOS",
   t4 "GSUB", t4 "EBSC", t4 "JSTF", t4 "MATH", t4 "CBDT", t4 "CBLC", t4 "COLR",
   t4 "CPAL", t4 "SVG ", t4 "sbix", t4 "acnt", t4 "avar", t4 "bdat", t4 "bloc",
   t4 "bsln", t4 "cvar", t4 "fdsc", t4 "feat", t4 "fmtx", t4 "fvar", t4 "gvar",
   t4 "hsty", t4 "just", t4 "lcar", t4 "mort", t4 "morx", t4 "opbd", t4 "prop",
   t4 "trak", t4 "Zapf", t4 "Silf", t4 "Glat", t4 "Gloc", t4 "Feat", t4 "Sill"]

/-- A table-directory entry dict as `packTestDirectory` reads it:
`tag`, `origLength`, `transformLength`, `transformFlag`. -/
structure TableEntry where
  tag : List Nat
  origLength : Nat
  transformLength : Nat
  transformFlag : Nat
deriving DecidableEq

/-- Sort key for `sorted(directory)` at `woff.py` line 387: Python sorts
the `(tag, entry)` pairs, so byte order of the tag decides and equal
tags fall back to comparing the entry dicts; the tie-break among the
remaining fields is modelled lexicographically (deterministic either
way, and unreachable for well-formed directories with distinct tags). -/
def dirKey (e : TableEntry) :
    Lex (List Nat × Lex (Nat × Lex (Nat × Nat))) :=
  toLex (e.tag, toLex (e.origLength, toLex (e.transformLength, e.transformFlag)))

/-- The sorting relation of the directory sort. -/
def dirLE (a b : TableEntry) : Prop := dirKey a ≤ dirKey b

instance : DecidableRel dirLE := fun a b => by
  unfold dirLE
  infer_instance

instance : IsTotal TableEntry dirLE :=
  ⟨fun a b => le_total (dirKey a) (dirKey b)⟩

instance : IsTrans TableEntry dirLE :=
  ⟨fun _ _ _ h1 h2 => le_trans h1 h2⟩

instance : IsAntisymm TableEntry dirLE :=
  ⟨fun a b h1 h2 => by
    have h := le_antisymm h1 h2
    unfold dirKey at h
    have ha := toLex.injective h
    rw [Prod.mk.injEq] at ha
    obtain ⟨ht, h2'⟩ := ha
    have hb := toLex.injective h2'
    rw [Prod.mk.injEq] at hb
    obtain ⟨ho, h4⟩ := hb
    have hc := toLex.injective h4
    rw [Prod.mk.injEq] at hc
    obtain ⟨htl, hf⟩ := hc
    cases a
    cases b
    simp_all⟩

/-- Translation of `woff.py` line 75. -/
def unknownTableTagFlag : Nat := 63

/-- Translation of `woff.py` line 77. -/
def transformedTables : List (List Nat) := [t4 "glyf", t4 "loca"]

/-- Translation of `_setTransformBits` (`woff.py` lines 374-381). -/
def setTransformBits (flag : Nat) (t : Nat) : Nat :=
  if t = 1 then flag ||| (1 <<< 6)
  else if t = 2 then flag ||| (1 <<< 7)
  else if t = 3 then flag ||| (1 <<< 6 ||| 1 <<< 7)
  else flag

/-- The literal 4-byte tag field, `struct.pack(">4s", tag)`: truncated
or zero-padded to exactly 4 bytes. -/
def tagBytes4 (tag : List Nat) : List Nat :=
  tag.take 4 ++ List.replicate (4 - tag.length) 0

/-- The per-entry body of `packTestDirectory` (`woff.py` lines 397-415):
flag byte from the known-tag index (note the code tests membership in
the `knownTags` parameter yet indexes the global `knownTableTags`), the
custom-tag escape, `UIntBase128(origLength)`, and the conditional
`UIntBase128(transformLength)`.  The `assert transformFlag <= 3` and a
`ValueError` from `knownTableTags.index` are `none`. -/
def packDirEntry (knownTags : List (List Nat)) (skipTransformLength base128Bug : Bool)
    (e : TableEntry) : Option (List Nat) :=
  if e.transformFlag ≤ 3 then
    let headOpt : Option (List Nat) :=
      if e.tag ∈ knownTags then
        match knownTableTags.indexOf? e.tag with
        | some i => some [setTransformBits i e.transformFlag]
        | none => none
      else
        some ([setTransformBits unknownTableTagFlag e.transformFlag] ++ tagBytes4 e.tag)
    headOpt.map
      (fun head =>
        let transformed :=
          if e.tag ∈ transformedTables then e.transformFlag ≠ 3
          else e.transformFlag ≠ 0
        head ++ packBase128 e.origLength base128Bug ++
          (if transformed ∧ ¬ skipTransformLength = true then
            packBase128 e.transformLength base128Bug
          else []))
  else none

/-- The index scan of `woff.py` lines 389-393: the loop keeps the last
matching position. -/
def lastIdxOf (l : List TableEntry) (t : List Nat) : Option Nat :=
  (List.range l.length).foldl
    (fun acc i =>
      match l.get? i with
      | some e => if e.tag = t then some i else acc
      | none => acc)
    none

/-- Translation of `packTestDirectory` (`woff.py` lines 383-416).  The
`unsortGlyfLoca` branch pops the last `loca` entry and reinserts it at
the `glyf` position; Python 2's `assert loca` / `assert glyf` fail both
when the tag is absent and when its index is 0 (truthiness), modelled
as `none`. -/
def packTestDirectory (directory : List TableEntry) (knownTags : List (List Nat))
    (skipTransformLength isCollection unsortGlyfLoca base128Bug : Bool) :
    Option (List Nat) := do
  let dir := if isCollection then directory else List.insertionSort dirLE directory
  let dir2 ←
    if unsortGlyfLoca then
      match lastIdxOf dir (t4 "loca"), lastIdxOf dir (t4 "glyf") with
      | some li, some gi =>
        if li ≠ 0 ∧ gi ≠ 0 then
          match dir.get? li with
          | some e => some ((dir.eraseIdx li).insertIdx gi e)
          | none => none
        else none
      | _, _ => none
    else pure dir
  let parts ← dir2.mapM (packDirEntry knownTags skipTransformLength base128Bug)
  pure parts.join

/-- One `[tag, data]` element of `tableData` in `getWOFFCollectionData`
(`sfnt.py`): the tag and the `(origData, transformedData)` pair returned
by `transformTable`. -/
structure CollTableEntry where
  tag : List Nat
  origData : List Nat
  transformedData : List Nat
deriving DecidableEq

/-- The per-font tag loop of `getWOFFCollectionData` (`sfnt.py` lines
178-196, MismatchGlyfLoca=False path): append `[tag, data]` to the
shared list when it is not already present, and record
`tableData.index([tag, data])` for the font's collection directory
(keyed by tag there; each entry is recorded in tag order). -/
def addFontTables (td : List CollTableEntry) :
    List CollTableEntry → List CollTableEntry × List (CollTableEntry × Nat)
  | [] => (td, [])
  | e :: rest =>
    let td2 := if e ∈ td then td else td ++ [e]
    let idx := td2.indexOf e
    let r := addFontTables td2 rest
    (r.1, (e, idx) :: r.2)

/-- The outer font loop of `getWOFFCollectionData`: threads the shared
`tableData` list through every font and collects the per-font index
records. -/
def collectFonts (td : List CollTableEntry) :
    List (List CollTableEntry) →
      List CollTableEntry × List (List (CollTableEntry × Nat))
  | [] => (td, [])
  | f :: rest =>
    let r := addFontTables td f
    let r2 := collectFonts r.1 rest
    (r2.1, r.2 :: r2.2)

/-- The deduplicated shared table list and per-font directory records of
`getWOFFCollectionData`, starting from an empty `tableData`. -/
def getWOFFCollectionShared (fonts : List (List CollTableEntry)) :
    List CollTableEntry × List (List (CollTableEntry × Nat)) :=
  collectFonts [] fonts

/-- Follows the spec's words (for comparison with the code): the
deduplicated list of the table blobs in first-seen order. -/
def firstSeenDedup (l : List CollTableEntry) : List CollTableEntry :=
  l.foldl (fun acc e => if e ∈ acc then acc else acc ++ [e]) []


/-- Concrete directory entries for the ordering witness. -/
def dirEntryGlyf : TableEntry := ⟨t4 "glyf", 10, 5, 0⟩

/-- Concrete directory entries for the ordering witness. -/
def dirEntryHead : TableEntry := ⟨t4 "head", 20, 0, 0⟩

/-- Two `loca` entries with byte-identical (empty) transformed data but
different original bytes, as two fonts with different outlines produce. -/
def collEntryLocaA : CollTableEntry := ⟨t4 "loca", [1], []⟩

/-- Two `loca` entries with byte-identical (empty) transformed data but
different original bytes, as two fonts with different outlines produce. -/
def collEntryLocaB : CollTableEntry := ⟨t4 "loca", [2], []⟩

/-- C7: for n = 506, `pack255UInt16` emits `[254, 0]` with alternate=0,
`[253, 1, 250]` with alternate=1, and `[255, 253]` with alternate=2, and
the 255UInt16 reference decoder maps each of these encodings back
to 506. -/
theorem pack255UInt16_506_three_encodings :
    pack255UInt16 506 0 = some [254, 0] ∧
    pack255UInt16 506 1 = some [253, 1, 250] ∧
    pack255UInt16 506 2 = some [255, 253] ∧
    decode255UInt16 [254, 0] = some 506 ∧
    decode255UInt16 [253, 1, 250] = some 506 ∧
    decode255UInt16 [255, 253] = some 506 := by
  refine ⟨?_, ?_, ?_, ?_, ?_, ?_⟩ <;> decide

theorem base128Size_eq_one (n : Nat) (h : n < 128) : base128Size n = 1 := by
  unfold base128Size
  simp [h]

theorem base128Size_eq_succ (n : Nat) (h : ¬ n < 128) :
    base128Size n = 1 + base128Size (n >>> 7) := by
  conv_lhs => unfold base128Size
  simp [h]

theorem base128Size_pos (n : Nat) : 1 ≤ base128Size n := by
  by_cases h : n < 128
  · rw [base128Size_eq_one n h]
  · rw [base128Size_eq_succ n h]
    omega

theorem shiftRight_seven (n : Nat) : n >>> 7 = n / 128 := by
  simp [Nat.shiftRight_eq_div_pow]

theorem lt_pow_base128Size (n : Nat) : n < 128 ^ base128Size n := by
  induction n using Nat.strong_induction_on with
  | _ n ih =>
    by_cases h : n < 128
    · rw [base128Size_eq_one n h]
      simpa using h
    · rw [base128Size_eq_succ n h, shiftRight_seven]
      have hlt : n / 128 < n := Nat.div_lt_self (by omega) (by omega)
      have hd := ih (n / 128) hlt
      have hpow : (128:Nat) ^ (1 + base128Size (n / 128)) =
          128 * 128 ^ base128Size (n / 128) := by
        rw [pow_add, pow_one]
      rw [hpow]
      omega

theorem pow_pred_le_of_base128Size (n : Nat) (h : ¬ n < 128) :
    128 ^ (base128Size n - 1) ≤ n := by
  induction n using Nat.strong_induction_on with
  | _ n ih =>
    rw [base128Size_eq_succ n h, shiftRight_seven]
    by_cases h2 : n / 128 < 128
    · rw [base128Size_eq_one _ h2]
      have he : 1 + 1 - 1 = 1 := rfl
      rw [he, pow_one]
      omega
    · have hlt : n / 128 < n := Nat.div_lt_self (by omega) (by omega)
      have hrec := ih (n / 128) hlt h2
      have hp : 1 ≤ base128Size (n / 128) := base128Size_pos _
      have he : 1 + base128Size (n / 128) - 1 = (base128Size (n / 128) - 1) + 1 := by
        omega
      rw [he, pow_succ]
      calc 128 ^ (base128Size (n / 128) - 1) * 128 ≤ n / 128 * 128 :=
            Nat.mul_le_mul_right _ hrec
        _ ≤ n := by omega

theorem base128Size_le_of_lt_pow (s : Nat) (hs : 1 ≤ s) :
    ∀ n : Nat, n < 128 ^ s → base128Size n ≤ s := by
  induction s with
  | zero => omega
  | succ s ih =>
    intro n hn
    by_cases h : n < 128
    · rw [base128Size_eq_one n h]; omega
    · have hs1 : 1 ≤ s := by
        rcases Nat.eq_zero_or_pos s with h0 | h1
        · subst h0
          rw [pow_one] at hn
          omega
        · exact h1
      rw [base128Size_eq_succ n h, shiftRight_seven]
      have hdiv : n / 128 < 128 ^ s := by
        rw [pow_succ] at hn
        omega
      have := ih hs1 (n / 128) hdiv
      omega

theorem packBase128_false_eq_map (n : Nat) :
    packBase128 n false =
      (List.range (base128Size n)).map (fun i =>
        let b := (n >>> (7 * (base128Size n - i - 1))) &&& 0x7f
        if i < base128Size n - 1 then b ||| 0x80 else b) := by
  simp [packBase128]

theorem and_0x7f_le (v : Nat) : v &&& 0x7f ≤ 127 :=
  Nat.and_le_right

theorem or128_and127 (x : Nat) (hx : x < 128) : (x ||| 128) &&& 0x7f = x := by
  have h1 : (128:Nat) ||| x = 128 + x := by
    have := Nat.mul_add_lt_is_or (i := 7) (b := x) (by simpa using hx) 1
    simpa [Nat.mul_one] using this.symm
  have h2 : x ||| 128 = x + 128 := by
    rw [Nat.lor_comm, h1]
    omega
  rw [h2]
  have := Nat.and_pow_two_sub_one_eq_mod (x + 128) 7
  norm_num at this
  rw [this]
  omega

theorem and127_idem (v : Nat) : (v &&& 0x7f) &&& 0x7f = v &&& 0x7f := by
  have h : (0x7f:Nat) &&& 0x7f = 0x7f := by decide
  rw [Nat.and_assoc, h]

theorem packBase128_map_and (n : Nat) :
    (packBase128 n false).map (· &&& 0x7f) =
      (base128Digits (base128Size n) n).map (· &&& 0x7f) := by
  rw [packBase128_false_eq_map]
  simp only [base128Digits, List.map_map]
  apply List.map_congr_left
  intro i _
  by_cases h : i < base128Size n - 1
  · simp only [Function.comp_apply, if_pos h]
    rw [or128_and127 _ (by have := and_0x7f_le (n >>> (7 * (base128Size n - i - 1))); omega)]
    rw [and127_idem]
  · simp [Function.comp_apply, h]

theorem foldl_step_congr (l₁ l₂ : List Nat)
    (h : l₁.map (· &&& 0x7f) = l₂.map (· &&& 0x7f)) :
    ∀ acc : Nat, l₁.foldl (fun acc b => acc * 128 + (b &&& 0x7f)) acc =
      l₂.foldl (fun acc b => acc * 128 + (b &&& 0x7f)) acc := by
  induction l₁ generalizing l₂ with
  | nil =>
    cases l₂ with
    | nil => intro acc; rfl
    | cons b t => simp at h
  | cons a t ih =>
    cases l₂ with
    | nil => simp at h
    | cons b t₂ =>
      simp only [List.map_cons, List.cons.injEq] at h
      intro acc
      simp only [List.foldl_cons, h.1]
      exact ih t₂ h.2 _

theorem and_0x7f_eq_mod (n : Nat) : n &&& 0x7f = n % 128 := by
  have := Nat.and_pow_two_sub_one_eq_mod n 7
  norm_num at this
  exact this

theorem foldl_base128Digits (s : Nat) :
    ∀ n acc : Nat, (base128Digits s n).foldl
        (fun acc b => acc * 128 + (b &&& 0x7f)) acc = acc * 128 ^ s + n % 128 ^ s := by
  induction s with
  | zero => intro n acc; simp [base128Digits, Nat.mod_one]
  | succ s ih =>
    intro n acc
    have hsplit : base128Digits (s + 1) n =
        base128Digits s (n >>> 7) ++ [n &&& 0x7f] := by
      simp only [base128Digits, List.range_succ, List.map_append, List.map_cons,
        List.map_nil]
      congr 1
      · apply List.map_congr_left
        intro i hi
        have hi' : i < s := List.mem_range.mp hi
        have harg : 7 * (s + 1 - i - 1) = 7 + 7 * (s - i - 1) := by omega
        rw [harg, Nat.shiftRight_add]
      · have h0 : s + 1 - s - 1 = 0 := by omega
        rw [h0]
        simp
    rw [hsplit, List.foldl_append]
    simp only [List.foldl_cons, List.foldl_nil]
    rw [ih (n >>> 7) acc, shiftRight_seven]
    have h2 : (n &&& 0x7f) &&& 0x7f = n % 128 := by
      rw [Nat.and_assoc]
      norm_num
      exact and_0x7f_eq_mod n
    rw [h2]
    have hmod : n % 128 ^ (s + 1) = n / 128 % 128 ^ s * 128 + n % 128 := by
      have h128 : (128:Nat) ^ (s + 1) = 128 * 128 ^ s := by
        rw [pow_succ]; ring
      rw [h128, Nat.mod_mul]
      ring
    rw [hmod, pow_succ]
    ring

/-- C5: for every n < 2^32, `packBase128 n false` decodes back to n, is at
most 5 bytes, has no leading zero byte unless it is the only byte, and
the extra leading 0x80 byte appears exactly under `bug = true`. -/
theorem packBase128_roundtrip (n : Nat) (h : n < 2 ^ 32) :
    decodeBase128 (packBase128 n false) = n ∧
    (packBase128 n false).length ≤ 5 ∧
    (∀ b, (packBase128 n false).head? = some b →
      1 < (packBase128 n false).length → b &&& 0x7f ≠ 0) ∧
    packBase128 n true = 0x80 :: packBase128 n false := by
  refine ⟨?_, ?_, ?_, ?_⟩
  · unfold decodeBase128
    rw [foldl_step_congr _ _ (packBase128_map_and n) 0,
      foldl_base128Digits (base128Size n) n 0]
    simp [Nat.mod_eq_of_lt (lt_pow_base128Size n)]
  · rw [packBase128_false_eq_map]
    simp only [List.length_map, List.length_range]
    apply base128Size_le_of_lt_pow 5 (by omega)
    calc n < 2 ^ 32 := h
      _ ≤ 128 ^ 5 := by norm_num
  · intro b hb hlen
    rw [packBase128_false_eq_map] at hb hlen
    simp only [List.length_map, List.length_range] at hlen
    obtain ⟨k, hk⟩ : ∃ k, base128Size n = k + 1 :=
      ⟨base128Size n - 1, by have := base128Size_pos n; omega⟩
    have hkpos : 0 < k := by omega
    rw [hk, List.range_succ_eq_map] at hb
    simp only [List.map_cons, List.head?_cons, Option.some.injEq] at hb
    have hb' : b = ((n >>> (7 * k)) &&& 0x7f) ||| 0x80 := by
      rw [← hb]
      have h1 : k + 1 - 0 - 1 = k := by omega
      have h2 : 0 < k + 1 - 1 := by omega
      simp only [h1, if_pos h2]
    have hn128 : ¬ n < 128 := by
      intro hcon
      rw [base128Size_eq_one n hcon] at hk
      omega
    have hlow : 128 ^ k ≤ n := by
      have := pow_pred_le_of_base128Size n hn128
      rw [hk] at this
      simpa using this
    have hhigh : n < 128 ^ (k + 1) := by
      have := lt_pow_base128Size n
      rwa [hk] at this
    have h2p : (2:Nat) ^ (7 * k) = 128 ^ k := by
      rw [pow_mul]
      norm_num
    have hdiv : 1 ≤ n >>> (7 * k) := by
      rw [Nat.shiftRight_eq_div_pow, h2p]
      exact (Nat.one_le_div_iff (by positivity)).mpr hlow
    have hdivlt : n >>> (7 * k) < 128 := by
      rw [Nat.shiftRight_eq_div_pow, h2p]
      apply Nat.div_lt_of_lt_mul
      rw [pow_succ] at hhigh
      exact hhigh
    subst hb'
    rw [or128_and127 _ (by have := and_0x7f_le (n >>> (7 * k)); omega)]
    rw [and_0x7f_eq_mod, Nat.mod_eq_of_lt hdivlt]
    omega
  · simp [packBase128]

theorem packUInt16_length (n : Int) : (packUInt16 n).length = 2 :=
  rfl

theorem length_join_map {α : Type _} (f : α → List Nat) (c : Nat)
    (hc : ∀ a, (f a).length = c) :
    ∀ gs : List α, ((gs.map f).join).length = c * gs.length := by
  intro gs
  induction gs with
  | nil => simp
  | cons a t ih =>
    simp only [List.map_cons, List.join_cons, List.length_append, hc a, ih,
      List.length_cons]
    rw [Nat.mul_succ]
    omega

theorem any_mismatch_false (gs : List HmtxGlyph)
    (hall : ∀ g ∈ gs, g.lsb = glyphXMin g) :
    gs.any (fun g => decide (g.lsb ≠ glyphXMin g)) = false := by
  rw [List.any_eq_false]
  intro g hg
  simp [hall g hg]

theorem transformHmtx_core (f : HmtxFont)
    (hall : ∀ g ∈ f.glyphs, g.lsb = glyphXMin g)
    (hlen : f.glyphs.length = f.numGlyphs)
    (hle : f.numberOfHMetrics ≤ f.numGlyphs)
    (hpos : 1 ≤ f.numberOfHMetrics) :
    ∃ rest : List Nat,
      transformHmtx f =
        some ((1 + if f.numberOfHMetrics = f.numGlyphs then 2 else 0) :: rest) ∧
      rest.length = 2 * f.numberOfHMetrics +
        (if f.numberOfHMetrics = f.numGlyphs then 0
         else 2 * (f.numGlyphs - f.numberOfHMetrics)) ∧
      (compileHmtx f).length =
        4 * f.numberOfHMetrics + 2 * (f.numGlyphs - f.numberOfHMetrics) := by
  have htake : (f.glyphs.take f.numberOfHMetrics).length = f.numberOfHMetrics := by
    simp [List.length_take]
    omega
  have hdrop : (f.glyphs.drop f.numberOfHMetrics).length =
      f.numGlyphs - f.numberOfHMetrics := by
    simp [List.length_drop]
    omega
  have hadv : (((f.glyphs.take f.numberOfHMetrics).map
      (fun g => packUInt16 g.advance)).join).length = 2 * f.numberOfHMetrics := by
    rw [length_join_map (fun g : HmtxGlyph => packUInt16 g.advance) 2 (fun a => rfl), htake]
  have htrail : (((f.glyphs.drop f.numberOfHMetrics).map
      (fun g => packUInt16 g.lsb)).join).length =
      2 * (f.numGlyphs - f.numberOfHMetrics) := by
    rw [length_join_map (fun g : HmtxGlyph => packUInt16 g.lsb) 2 (fun a => rfl), hdrop]
  have horig : (compileHmtx f).length =
      4 * f.numberOfHMetrics + 2 * (f.numGlyphs - f.numberOfHMetrics) := by
    unfold compileHmtx
    rw [List.length_append,
      length_join_map (fun g : HmtxGlyph => packUInt16 g.advance ++ packInt16 g.lsb) 4
        (fun a => rfl),
      length_join_map (fun g : HmtxGlyph => packInt16 g.lsb) 2 (fun a => rfl),
      htake, hdrop]
  have hany : f.glyphs.any (fun g => decide (g.lsb ≠ glyphXMin g)) = false :=
    any_mismatch_false _ hall
  have hanyTake : (f.glyphs.take f.numberOfHMetrics).any
      (fun g => decide (g.lsb ≠ glyphXMin g)) = false :=
    any_mismatch_false _ (fun g hg => hall g (List.take_subset _ _ hg))
  simp only [transformHmtx, hany, hanyTake, Bool.false_eq_true, if_false]
  by_cases heq : f.numberOfHMetrics = f.numGlyphs
  · have hb : decide (f.numberOfHMetrics ≠ f.numGlyphs) = false := by
      simp [heq]
    simp only [hb, Bool.false_eq_true, if_false]
    have hC : ((1 + 2 : Nat) ::
        ((((f.glyphs.take f.numberOfHMetrics).map
          (fun g => packUInt16 g.advance)).join ++ [] ++ []))).length <
        (compileHmtx f).length := by
      simp only [List.length_cons, List.length_append, hadv, List.length_nil, horig]
      omega
    rw [if_pos hC, if_pos heq]
    refine ⟨_, rfl, ?_, ?_⟩
    · simp only [List.length_append, hadv, List.length_nil, if_pos heq]
      try omega
    · omega
  · have hb : decide (f.numberOfHMetrics ≠ f.numGlyphs) = true := by
      simp [heq]
    simp only [hb, if_true]
    have hC : ((1 + 0 : Nat) ::
        ((((f.glyphs.take f.numberOfHMetrics).map
          (fun g => packUInt16 g.advance)).join ++ [] ++
          ((f.glyphs.drop f.numberOfHMetrics).map
            (fun g => packUInt16 g.lsb)).join))).length <
        (compileHmtx f).length := by
      simp only [List.length_cons, List.length_append, hadv, htrail, List.length_nil,
        horig]
      omega
    rw [if_pos hC, if_neg heq]
    refine ⟨_, rfl, ?_, ?_⟩
    · simp only [List.length_append, hadv, htrail, List.length_nil, if_neg heq]
      omega
    · omega

/-- C2 corrected: the hmtx transform applies iff every glyph's LSB equals
its outline xMin (else the table passes through as the original bytes);
when it applies, bit 0 of the flags byte is always set (the LSB array is
always omitted) and bit 1 is set iff `numberOfHMetrics = numGlyphs`; the
output is the flags byte, one 2-byte advance per hMetric, and the
trailing left-side-bearing array exactly when
`numberOfHMetrics ≠ numGlyphs`. -/
theorem transformHmtx_flags_spec (f : HmtxFont)
    (hlen : f.glyphs.length = f.numGlyphs)
    (hle : f.numberOfHMetrics ≤ f.numGlyphs)
    (hpos : 1 ≤ f.numberOfHMetrics) :
    ((∃ g ∈ f.glyphs, g.lsb ≠ glyphXMin g) →
      transformHmtx f = some (compileHmtx f)) ∧
    ((∀ g ∈ f.glyphs, g.lsb = glyphXMin g) →
      ∃ fb rest, transformHmtx f = some (fb :: rest) ∧
        fb &&& 1 = 1 ∧
        ((fb &&& 2 = 2) ↔ f.numberOfHMetrics = f.numGlyphs) ∧
        rest.length = 2 * f.numberOfHMetrics +
          (if f.numberOfHMetrics = f.numGlyphs then 0
           else 2 * (f.numGlyphs - f.numberOfHMetrics))) := by
  constructor
  · intro hmis
    obtain ⟨g, hg, hne⟩ := hmis
    unfold transformHmtx
    rw [if_pos]
    rw [List.any_eq_true]
    exact ⟨g, hg, by simpa using hne⟩
  · intro hall
    obtain ⟨rest, heq, hrl, _⟩ := transformHmtx_core f hall hlen hle hpos
    refine ⟨_, rest, heq, ?_, ?_, hrl⟩
    · by_cases h : f.numberOfHMetrics = f.numGlyphs
      · rw [if_pos h]
        decide
      · rw [if_neg h]
        decide
    · by_cases h : f.numberOfHMetrics = f.numGlyphs
      · rw [if_pos h]
        exact ⟨fun _ => h, fun _ => by decide⟩
      · rw [if_neg h]
        exact ⟨fun hc => absurd hc (by decide), fun hc => absurd hc h⟩

/-- Witness for C2's corrected theorem at the concrete two-glyph font. -/
theorem transformHmtx_flags_spec_witness :
    ((∃ g ∈ hmtxFontC2.glyphs, g.lsb ≠ glyphXMin g) →
      transformHmtx hmtxFontC2 = some (compileHmtx hmtxFontC2)) ∧
    ((∀ g ∈ hmtxFontC2.glyphs, g.lsb = glyphXMin g) →
      ∃ fb rest, transformHmtx hmtxFontC2 = some (fb :: rest) ∧
        fb &&& 1 = 1 ∧
        ((fb &&& 2 = 2) ↔ hmtxFontC2.numberOfHMetrics = hmtxFontC2.numGlyphs) ∧
        rest.length = 2 * hmtxFontC2.numberOfHMetrics +
          (if hmtxFontC2.numberOfHMetrics = hmtxFontC2.numGlyphs then 0
           else 2 * (hmtxFontC2.numGlyphs - hmtxFontC2.numberOfHMetrics))) :=
  transformHmtx_flags_spec hmtxFontC2 (by decide) (by decide) (by decide)

/-- C2 is false as stated: in `hmtxFontC2` every glyph beyond
`numberOfHMetrics` has LSB equal to its xMin, yet the emitted flags byte
is 1, whose bit 1 is clear. -/
theorem transformHmtx_bit1_counterexample :
    (∀ g ∈ hmtxFontC2.glyphs.drop hmtxFontC2.numberOfHMetrics,
      g.lsb = glyphXMin g) ∧
    transformHmtx hmtxFontC2 = some [1, 1, 244, 0, 20] ∧
    ((1 : Nat) &&& 2 ≠ 2) := by
  refine ⟨?_, ?_, ?_⟩ <;> decide

/-- C10: whenever the hmtx transform applies (all LSBs equal xMin) to a
well-formed font with `numberOfHMetrics ≥ 1`, the transformed bytes are
strictly shorter than the original table, so the closing length
assertion never fails; and `numberOfHMetrics ≥ 1` is necessary: the
assertion fails on `hmtxFontZero`, whose `numberOfHMetrics` is 0. -/
theorem transformHmtx_shrinks (f : HmtxFont)
    (hall : ∀ g ∈ f.glyphs, g.lsb = glyphXMin g)
    (hlen : f.glyphs.length = f.numGlyphs)
    (hle : f.numberOfHMetrics ≤ f.numGlyphs)
    (hpos : 1 ≤ f.numberOfHMetrics) :
    (∃ d, transformHmtx f = some d ∧ d.length < (compileHmtx f).length) ∧
    transformHmtx hmtxFontZero = none := by
  constructor
  · obtain ⟨rest, heq, hrl, horig⟩ := transformHmtx_core f hall hlen hle hpos
    refine ⟨_, heq, ?_⟩
    simp only [List.length_cons, hrl, horig]
    by_cases h : f.numberOfHMetrics = f.numGlyphs
    · rw [if_pos h]
      omega
    · rw [if_neg h]
      omega
  · decide

/-- Witness for C10 at the concrete two-glyph font. -/
theorem transformHmtx_shrinks_witness :
    (∃ d, transformHmtx hmtxFontC2 = some d ∧
      d.length < (compileHmtx hmtxFontC2).length) ∧
    transformHmtx hmtxFontZero = none :=
  transformHmtx_shrinks hmtxFontC2 (by decide) (by decide) (by decide) (by decide)

theorem packBBoxBytes_len (b : BBox) : (packBBoxBytes b).length = 8 :=
  rfl

theorem processGlyph_composite_fields (comps : List (List Nat))
    (prog : Option (List Nat)) (bb : BBox) (gb : String) (alt : Bool)
    (cc : GlyphContribution)
    (hcc : processGlyph (.composite comps prog bb) gb alt = some cc) :
    cc.bboxBit = decide (gb ≠ "nocomposite") ∧
    cc.bboxBytes =
      (if decide (gb ≠ "nocomposite") = true then packBBoxBytes bb else []) := by
  cases prog with
  | none =>
    simp only [processGlyph, Option.bind_eq_bind, Option.pure_def,
      Option.some_bind, Option.some_inj] at hcc
    subst hcc
    exact ⟨rfl, rfl⟩
  | some instrs =>
    rcases hpk : pack255UInt16 (instrs.length : Int) (if alt then 1 else 0)
      with _ | iL
    · simp only [processGlyph, Option.bind_eq_bind, Option.pure_def, hpk,
        Option.none_bind] at hcc
      exact Option.noConfusion hcc
    · simp only [processGlyph, Option.bind_eq_bind, Option.pure_def, hpk,
        Option.some_bind, Option.some_inj] at hcc
      subst hcc
      exact ⟨rfl, rfl⟩

theorem processGlyph_simple_fields (s : SimpleGlyph) (gb : String) (alt : Bool)
    (cs : GlyphContribution)
    (hne : s.endPtsOfContours.length ≠ 0)
    (hcs : processGlyph (.simple s) gb alt = some cs) :
    cs.bboxBit = decide (s.bbox ≠ calcIntBounds s.coordinates) ∧
    cs.bboxBytes =
      (if decide (s.bbox ≠ calcIntBounds s.coordinates) = true
       then packBBoxBytes s.bbox else []) := by
  simp only [processGlyph, if_neg hne, Option.bind_eq_bind, Option.bind_eq_some] at hcs
  obtain ⟨nP, hnP, fg, hfg, iL, hiL, hcs⟩ := hcs
  rw [Option.some_inj] at hcs
  subst hcs
  exact ⟨rfl, rfl⟩

/-- C1: for every non-empty, non-composite glyph processed by
`transformGlyf`, the glyph's bbox-bitmap bit is set and exactly 8 bytes
(the stored box, big-endian int16 quad) are appended to the bbox stream
iff the bounds recomputed from the point geometry differ from the stored
bounds, and a bit of 0 contributes no bbox bytes; a composite glyph
always records its stored bbox unless `glyphBBox = "nocomposite"`. -/
theorem transformGlyf_bbox_rule
    (s : SimpleGlyph) (comps : List (List Nat)) (prog : Option (List Nat))
    (bb : BBox) (gb : String) (alt : Bool) (cs cc : GlyphContribution)
    (hne : s.endPtsOfContours.length ≠ 0)
    (hcs : processGlyph (.simple s) gb alt = some cs)
    (hcc : processGlyph (.composite comps prog bb) gb alt = some cc) :
    ((cs.bboxBit = true ∧ cs.bboxBytes = packBBoxBytes s.bbox ∧
        cs.bboxBytes.length = 8)
      ↔ s.bbox ≠ calcIntBounds s.coordinates) ∧
    (s.bbox = calcIntBounds s.coordinates →
      cs.bboxBit = false ∧ cs.bboxBytes = []) ∧
    (cs.bboxBit = false → cs.bboxBytes = []) ∧
    (cc.bboxBit = true ↔ gb ≠ "nocomposite") ∧
    (cc.bboxBit = true → cc.bboxBytes = packBBoxBytes bb ∧ cc.bboxBytes.length = 8) ∧
    (cc.bboxBit = false → cc.bboxBytes = []) := by
  obtain ⟨hsb, hsB⟩ := processGlyph_simple_fields s gb alt cs hne hcs
  obtain ⟨hcb, hcB⟩ := processGlyph_composite_fields comps prog bb gb alt cc hcc
  refine ⟨?_, ?_, ?_, ?_, ?_, ?_⟩
  · rw [hsb, hsB]
    by_cases hD : s.bbox ≠ calcIntBounds s.coordinates
    · simp [hD, packBBoxBytes_len]
    · simp [hD]
  · intro hEq
    rw [hsb, hsB]
    constructor
    · simp [hEq]
    · simp [hEq]
  · rw [hsb, hsB]
    by_cases hD : s.bbox ≠ calcIntBounds s.coordinates
    · simp [hD]
    · simp [hD]
  · rw [hcb]
    simp only [decide_eq_true_eq]
  · rw [hcb, hcB]
    intro h
    rw [if_pos h]
    exact ⟨rfl, packBBoxBytes_len bb⟩
  · rw [hcb, hcB]
    intro h
    simp only [h, Bool.false_eq_true, if_false]

/-- Witness for C1 at a one-point simple glyph whose stored and
recomputed bounds agree, and a one-component composite glyph. -/
theorem transformGlyf_bbox_rule_witness :
    ((glyfSimpleWC.bboxBit = true ∧
        glyfSimpleWC.bboxBytes = packBBoxBytes glyfSimpleW.bbox ∧
        glyfSimpleWC.bboxBytes.length = 8)
      ↔ glyfSimpleW.bbox ≠ calcIntBounds glyfSimpleW.coordinates) ∧
    (glyfSimpleW.bbox = calcIntBounds glyfSimpleW.coordinates →
      glyfSimpleWC.bboxBit = false ∧ glyfSimpleWC.bboxBytes = []) ∧
    (glyfSimpleWC.bboxBit = false → glyfSimpleWC.bboxBytes = []) ∧
    (glyfCompWC.bboxBit = true ↔ ("" : String) ≠ "nocomposite") ∧
    (glyfCompWC.bboxBit = true →
      glyfCompWC.bboxBytes = packBBoxBytes ⟨0, 0, 5, 5⟩ ∧
      glyfCompWC.bboxBytes.length = 8) ∧
    (glyfCompWC.bboxBit = false → glyfCompWC.bboxBytes = []) :=
  transformGlyf_bbox_rule glyfSimpleW [[7, 7]] none ⟨0, 0, 5, 5⟩ "" false
    glyfSimpleWC glyfCompWC (by decide) (by decide) (by decide)

/-- C3 corrected: for a zero-contour glyph the bbox-bitmap bit is set iff
the `glyphBBox` fixture flag equals `"empty"` — regardless of the stored
bounding box — and in that case four zero int16 values (8 zero bytes)
are emitted, not the stored box; with any other flag value the glyph
contributes bit 0 and no bytes. -/
theorem transformGlyf_empty_rule (s : SimpleGlyph) (gb : String) (alt : Bool)
    (c : GlyphContribution)
    (h0 : s.endPtsOfContours.length = 0)
    (hc : processGlyph (.simple s) gb alt = some c) :
    c.bboxBit = decide (gb = "empty") ∧
    c.bboxBytes = (if gb = "empty" then
        packInt16 0 ++ packInt16 0 ++ packInt16 0 ++ packInt16 0 else []) := by
  by_cases hg : gb = "empty"
  · simp only [processGlyph, if_pos h0, if_pos hg, Option.some_inj] at hc
    subst hc
    refine ⟨(decide_eq_true hg).symm, ?_⟩
    rw [if_pos hg]
  · simp only [processGlyph, if_pos h0, if_neg hg, Option.some_inj] at hc
    subst hc
    refine ⟨(decide_eq_false hg).symm, ?_⟩
    rw [if_neg hg]

/-- Witness for C3's corrected theorem at the all-zero-bbox empty glyph
under `glyphBBox = "empty"`. -/
theorem transformGlyf_empty_rule_witness :
    emptyGlyphC3C.bboxBit = decide (("empty" : String) = "empty") ∧
    emptyGlyphC3C.bboxBytes = (if ("empty" : String) = "empty" then
        packInt16 0 ++ packInt16 0 ++ packInt16 0 ++ packInt16 0 else []) :=
  transformGlyf_empty_rule emptyGlyphC3 "empty" false emptyGlyphC3C
    (by decide) (by decide)

/-- C3 is false as stated: under the `glyphBBox = "empty"` fixture flag a
zero-contour glyph whose stored bounding box is all-zero still gets its
bitmap bit set and 8 bytes in the bbox stream, while the claim demands
bit 0 and no bytes for such a glyph. -/
theorem transformGlyf_empty_counterexample :
    (processGlyph (Glyph.simple emptyGlyphC3) "empty" false).map
        (fun c => (c.bboxBit, c.bboxBytes.length)) = some (true, 8) ∧
    emptyGlyphC3.bbox = ⟨0, 0, 0, 0⟩ := by
  refine ⟨?_, ?_⟩ <;> decide

theorem and_mul_two_pow (n m k : Nat) :
    n &&& (m * 2 ^ k) = (n / 2 ^ k &&& m) * 2 ^ k := by
  apply Nat.eq_of_testBit_eq
  intro i
  rw [Nat.testBit_and]
  rcases lt_or_ge i k with h | h
  · have h1 : (m * 2 ^ k).testBit i = false := by
      rw [← Nat.shiftLeft_eq, Nat.testBit_shiftLeft]
      simp [Nat.not_le.mpr h]
    have h2 : ((n / 2 ^ k &&& m) * 2 ^ k).testBit i = false := by
      rw [← Nat.shiftLeft_eq, Nat.testBit_shiftLeft]
      simp [Nat.not_le.mpr h]
    rw [h1, h2, Bool.and_false]
  · have h1 : (m * 2 ^ k).testBit i = m.testBit (i - k) := by
      rw [← Nat.shiftLeft_eq, Nat.testBit_shiftLeft]
      simp [h]
    have h2 : ((n / 2 ^ k &&& m) * 2 ^ k).testBit i =
        (n / 2 ^ k &&& m).testBit (i - k) := by
      rw [← Nat.shiftLeft_eq, Nat.testBit_shiftLeft]
      simp [h]
    rw [h1, h2, Nat.testBit_and]
    have h3 : (n / 2 ^ k).testBit (i - k) = n.testBit i := by
      rw [← Nat.shiftRight_eq_div_pow, Nat.testBit_shiftRight]
      congr 1
      omega
    rw [h3]

theorem and_0xff_eq (n : Nat) : n &&& 0xff = n % 256 := by
  have := Nat.and_pow_two_sub_one_eq_mod n 8
  norm_num at this
  exact this

theorem and_0xf_eq (n : Nat) : n &&& 0xf = n % 16 := by
  have := Nat.and_pow_two_sub_one_eq_mod n 4
  norm_num at this
  exact this

theorem and_0x3_eq (n : Nat) : n &&& 3 = n % 4 := by
  have := Nat.and_pow_two_sub_one_eq_mod n 2
  norm_num at this
  exact this

theorem and_0xf00_eq (n : Nat) : n &&& 0xf00 = n / 256 % 16 * 256 := by
  have h := and_mul_two_pow n 15 8
  norm_num at h
  rw [show (3840:Nat) = 0xf00 from rfl] at h
  rw [h, and_0xf_eq]

theorem and_0x300_eq (n : Nat) : n &&& 0x300 = n / 256 % 4 * 256 := by
  have h := and_mul_two_pow n 3 8
  norm_num at h
  rw [show (768:Nat) = 0x300 from rfl] at h
  rw [h, and_0x3_eq]

theorem and_0x30_eq (n : Nat) : n &&& 0x30 = n / 16 % 4 * 16 := by
  have h := and_mul_two_pow n 3 4
  norm_num at h
  rw [show (48:Nat) = 0x30 from rfl] at h
  rw [h, and_0x3_eq]

theorem or_sixteen (a b : Nat) (hb : b < 16) : (a <<< 4) ||| b = a * 16 + b := by
  have h := Nat.mul_add_lt_is_or (i := 4) (b := b) (by simpa using hb) a
  rw [Nat.shiftLeft_eq]
  norm_num at h ⊢
  rw [Nat.mul_comm a 16]
  exact h.symm

theorem tsgn_natAbs (z : Int) : tsgn (if 0 < z then 1 else 0) z.natAbs = z := by
  unfold tsgn
  by_cases h : 0 < z
  · rw [if_pos h, if_pos rfl]
    omega
  · rw [if_neg h, if_neg (by omega)]
    omega

theorem decode_class1 (oc : Bool) (y : Int) (h : y.natAbs < 1280) :
    decodeTriplet
      [(if oc then 0 else 128) + ((y.natAbs &&& 0xf00) >>> 7) +
        (if 0 < y then 1 else 0)]
      [y.natAbs &&& 0xff] = some (0, y, oc) := by
  set A := y.natAbs with hA
  set s : Nat := if 0 < y then 1 else 0 with hs
  have hs1 : s ≤ 1 := by rw [hs]; split <;> omega
  have e1 : (A &&& 0xf00) >>> 7 = A / 256 * 2 := by
    rw [and_0xf00_eq, Nat.shiftRight_eq_div_pow]
    have hm : A / 256 % 16 = A / 256 := Nat.mod_eq_of_lt (by omega)
    rw [hm]
    omega
  have e2 : A &&& 0xff = A % 256 := and_0xff_eq A
  rw [e1, e2]
  set t := A / 256 * 2 + s with ht
  have htb : t ≤ 9 := by rw [ht]; omega
  have hf : (if oc then 0 else 128) + (A / 256 * 2) + s =
      (if oc then 0 else 128) + t := by omega
  rw [hf]
  cases oc with
  | false =>
    simp only [Bool.false_eq_true, if_false, decodeTriplet]
    have hb : (128 + t) % 128 = t := by omega
    rw [hb, if_pos (by omega)]
    have hoc : decide (128 + t < 128) = false := by
      simp
    rw [hoc]
    have hq2 : t % 2 = s := by omega
    have hq1 : t / 2 = A / 256 := by omega
    rw [hq2, hq1]
    have hval : A / 256 * 256 + A % 256 = A := by omega
    rw [hval, hA, hs]
    rw [tsgn_natAbs]
  | true =>
    simp only [if_true, decodeTriplet]
    have hb : (0 + t) % 128 = t := by omega
    rw [hb, if_pos (by omega)]
    have hoc : decide (0 + t < 128) = true := by
      simp
      omega
    rw [hoc]
    have hq2 : t % 2 = s := by omega
    have hq1 : t / 2 = A / 256 := by omega
    rw [hq2, hq1]
    have hval : A / 256 * 256 + A % 256 = A := by omega
    rw [hval, hA, hs]
    rw [tsgn_natAbs]

theorem decode_class2 (oc : Bool) (x : Int) (h : x.natAbs < 1280) :
    decodeTriplet
      [(if oc then 0 else 128) + 10 + ((x.natAbs &&& 0xf00) >>> 7) +
        (if 0 < x then 1 else 0)]
      [x.natAbs &&& 0xff] = some (x, 0, oc) := by
  set A := x.natAbs with hA
  set s : Nat := if 0 < x then 1 else 0 with hs
  have hs1 : s ≤ 1 := by rw [hs]; split <;> omega
  have e1 : (A &&& 0xf00) >>> 7 = A / 256 * 2 := by
    rw [and_0xf00_eq, Nat.shiftRight_eq_div_pow]
    have hm : A / 256 % 16 = A / 256 := Nat.mod_eq_of_lt (by omega)
    rw [hm]
    omega
  have e2 : A &&& 0xff = A % 256 := and_0xff_eq A
  rw [e1, e2]
  set t := A / 256 * 2 + s with ht
  have htb : t ≤ 9 := by rw [ht]; omega
  have hf : (if oc then 0 else 128) + 10 + (A / 256 * 2) + s =
      (if oc then 0 else 128) + (10 + t) := by omega
  rw [hf]
  cases oc with
  | false =>
    simp only [Bool.false_eq_true, if_false, decodeTriplet]
    have hb : (128 + (10 + t)) % 128 = 10 + t := by omega
    rw [hb, if_neg (by omega), if_pos (by omega)]
    have hoc : decide (128 + (10 + t) < 128) = false := by simp
    rw [hoc]
    have hq2 : (10 + t) % 2 = s := by omega
    have hq1 : (10 + t - 10) / 2 = A / 256 := by omega
    rw [hq2, hq1]
    have hval : A / 256 * 256 + A % 256 = A := by omega
    rw [hval, hA, hs]
    rw [tsgn_natAbs]
  | true =>
    simp only [if_true, decodeTriplet]
    have hb : (0 + (10 + t)) % 128 = 10 + t := by omega
    rw [hb, if_neg (by omega), if_pos (by omega)]
    have hoc : decide (0 + (10 + t) < 128) = true := by
      simp
      omega
    rw [hoc]
    have hq2 : (10 + t) % 2 = s := by omega
    have hq1 : (10 + t - 10) / 2 = A / 256 := by omega
    rw [hq2, hq1]
    have hval : A / 256 * 256 + A % 256 = A := by omega
    rw [hval, hA, hs]
    rw [tsgn_natAbs]

theorem decode_class3 (oc : Bool) (x y : Int)
    (hx1 : 1 ≤ x.natAbs) (hx : x.natAbs < 65)
    (hy1 : 1 ≤ y.natAbs) (hy : y.natAbs < 65) :
    decodeTriplet
      [(if oc then 0 else 128) + 20 + ((x.natAbs - 1) &&& 0x30) +
        (((y.natAbs - 1) &&& 0x30) >>> 2) +
        ((if 0 < x then 1 else 0) + 2 * (if 0 < y then 1 else 0))]
      [(((x.natAbs - 1) &&& 0xf) <<< 4) ||| ((y.natAbs - 1) &&& 0xf)] =
      some (x, y, oc) := by
  set a := x.natAbs - 1 with ha
  set b2 := y.natAbs - 1 with hb2
  set sx : Nat := if 0 < x then 1 else 0 with hsx
  set sy : Nat := if 0 < y then 1 else 0 with hsy
  have hsx1 : sx ≤ 1 := by rw [hsx]; split <;> omega
  have hsy1 : sy ≤ 1 := by rw [hsy]; split <;> omega
  have haB : a < 64 := by omega
  have hbB : b2 < 64 := by omega
  have e1 : a &&& 0x30 = a / 16 * 16 := by
    rw [and_0x30_eq]
    have : a / 16 % 4 = a / 16 := Nat.mod_eq_of_lt (by omega)
    rw [this]
  have e2 : (b2 &&& 0x30) >>> 2 = b2 / 16 * 4 := by
    rw [and_0x30_eq, Nat.shiftRight_eq_div_pow]
    have : b2 / 16 % 4 = b2 / 16 := Nat.mod_eq_of_lt (by omega)
    rw [this]
    omega
  have e3 : ((a &&& 0xf) <<< 4) ||| (b2 &&& 0xf) = (a % 16) * 16 + b2 % 16 := by
    rw [and_0xf_eq, and_0xf_eq, or_sixteen _ _ (by omega)]
  rw [e1, e2, e3]
  set t := a / 16 * 16 + b2 / 16 * 4 + (sx + 2 * sy) with ht
  have htb : t ≤ 63 := by rw [ht]; omega
  have hf : (if oc then 0 else 128) + 20 + (a / 16 * 16) + (b2 / 16 * 4) +
      (sx + 2 * sy) = (if oc then 0 else 128) + (20 + t) := by omega
  rw [hf]
  have hq2 : (20 + t - 20) % 2 = sx := by omega
  have hq42 : (20 + t - 20) % 4 / 2 = sy := by omega
  have hdx : 16 * ((20 + t - 20) / 16) + ((a % 16) * 16 + b2 % 16) / 16 + 1 =
      x.natAbs := by omega
  have hdy : 16 * ((20 + t - 20) % 16 / 4) + ((a % 16) * 16 + b2 % 16) % 16 + 1 =
      y.natAbs := by omega
  cases oc with
  | false =>
    simp only [Bool.false_eq_true, if_false, decodeTriplet]
    have hb : (128 + (20 + t)) % 128 = 20 + t := by omega
    rw [hb, if_neg (by omega), if_neg (by omega), if_pos (by omega)]
    have hoc : decide (128 + (20 + t) < 128) = false := by simp
    rw [hoc, hq2, hq42, hdx, hdy, hsx, hsy, tsgn_natAbs, tsgn_natAbs]
  | true =>
    simp only [if_true, decodeTriplet]
    have hb : (0 + (20 + t)) % 128 = 20 + t := by omega
    rw [hb, if_neg (by omega), if_neg (by omega), if_pos (by omega)]
    have hoc : decide (0 + (20 + t) < 128) = true := by
      simp
      omega
    rw [hoc, hq2, hq42, hdx, hdy, hsx, hsy, tsgn_natAbs, tsgn_natAbs]

theorem decode_class4 (oc : Bool) (x y : Int)
    (hx1 : 1 ≤ x.natAbs) (hx : x.natAbs < 769)
    (hy1 : 1 ≤ y.natAbs) (hy : y.natAbs < 769) :
    decodeTriplet
      [(if oc then 0 else 128) + 84 + 12 * (((x.natAbs - 1) &&& 0x300) >>> 8) +
        (((y.natAbs - 1) &&& 0x300) >>> 6) +
        ((if 0 < x then 1 else 0) + 2 * (if 0 < y then 1 else 0))]
      [(x.natAbs - 1) &&& 0xff, (y.natAbs - 1) &&& 0xff] = some (x, y, oc) := by
  set a := x.natAbs - 1 with ha
  set b2 := y.natAbs - 1 with hb2
  set sx : Nat := if 0 < x then 1 else 0 with hsx
  set sy : Nat := if 0 < y then 1 else 0 with hsy
  have hsx1 : sx ≤ 1 := by rw [hsx]; split <;> omega
  have hsy1 : sy ≤ 1 := by rw [hsy]; split <;> omega
  have haB : a < 768 := by omega
  have hbB : b2 < 768 := by omega
  have e1 : (a &&& 0x300) >>> 8 = a / 256 := by
    rw [and_0x300_eq, Nat.shiftRight_eq_div_pow]
    have : a / 256 % 4 = a / 256 := Nat.mod_eq_of_lt (by omega)
    rw [this]
    omega
  have e2 : (b2 &&& 0x300) >>> 6 = b2 / 256 * 4 := by
    rw [and_0x300_eq, Nat.shiftRight_eq_div_pow]
    have : b2 / 256 % 4 = b2 / 256 := Nat.mod_eq_of_lt (by omega)
    rw [this]
    omega
  have e3 : a &&& 0xff = a % 256 := and_0xff_eq a
  have e4 : b2 &&& 0xff = b2 % 256 := and_0xff_eq b2
  rw [e1, e2, e3, e4]
  set t := 12 * (a / 256) + b2 / 256 * 4 + (sx + 2 * sy) with ht
  have htb : t ≤ 35 := by rw [ht]; omega
  have hf : (if oc then 0 else 128) + 84 + 12 * (a / 256) + (b2 / 256 * 4) +
      (sx + 2 * sy) = (if oc then 0 else 128) + (84 + t) := by omega
  rw [hf]
  have hq2 : (84 + t - 84) % 2 = sx := by omega
  have hq42 : (84 + t - 84) % 4 / 2 = sy := by omega
  have hdx : 256 * ((84 + t - 84) / 12) + a % 256 + 1 = x.natAbs := by omega
  have hdy : 256 * ((84 + t - 84) % 12 / 4) + b2 % 256 + 1 = y.natAbs := by omega
  cases oc with
  | false =>
    simp only [Bool.false_eq_true, if_false, decodeTriplet]
    have hb : (128 + (84 + t)) % 128 = 84 + t := by omega
    rw [hb, if_pos ⟨by omega, by omega⟩]
    have hoc : decide (128 + (84 + t) < 128) = false := by simp
    rw [hoc, hq2, hq42, hdx, hdy, hsx, hsy, tsgn_natAbs, tsgn_natAbs]
  | true =>
    simp only [if_true, decodeTriplet]
    have hb : (0 + (84 + t)) % 128 = 84 + t := by omega
    rw [hb, if_pos ⟨by omega, by omega⟩]
    have hoc : decide (0 + (84 + t) < 128) = true := by
      simp
      omega
    rw [hoc, hq2, hq42, hdx, hdy, hsx, hsy, tsgn_natAbs, tsgn_natAbs]

theorem decode_class5 (oc : Bool) (x y : Int)
    (hx : x.natAbs < 4096) (hy : y.natAbs < 4096) :
    decodeTriplet
      [(if oc then 0 else 128) + 120 +
        ((if 0 < x then 1 else 0) + 2 * (if 0 < y then 1 else 0))]
      [x.natAbs >>> 4, ((x.natAbs &&& 0xf) <<< 4) ||| (y.natAbs >>> 8),
        y.natAbs &&& 0xff] = some (x, y, oc) := by
  set A := x.natAbs with hA
  set B := y.natAbs with hB
  set sx : Nat := if 0 < x then 1 else 0 with hsx
  set sy : Nat := if 0 < y then 1 else 0 with hsy
  have hsx1 : sx ≤ 1 := by rw [hsx]; split <;> omega
  have hsy1 : sy ≤ 1 := by rw [hsy]; split <;> omega
  have e1 : A >>> 4 = A / 16 := by
    rw [Nat.shiftRight_eq_div_pow]
  have e2 : ((A &&& 0xf) <<< 4) ||| (B >>> 8) = A % 16 * 16 + B / 256 := by
    rw [and_0xf_eq, Nat.shiftRight_eq_div_pow]
    exact or_sixteen _ _ (by omega)
  have e3 : B &&& 0xff = B % 256 := and_0xff_eq B
  rw [e1, e2, e3]
  set t := sx + 2 * sy with ht
  have htb : t ≤ 3 := by rw [ht]; omega
  have hq2 : (120 + t - 120) % 2 = sx := by omega
  have hq42 : (120 + t - 120) % 4 / 2 = sy := by omega
  have hdx : 16 * (A / 16) + (A % 16 * 16 + B / 256) / 16 = A := by omega
  have hdy : 256 * ((A % 16 * 16 + B / 256) % 16) + B % 256 = B := by omega
  have hf : (if oc then 0 else 128) + 120 + t = (if oc then 0 else 128) + (120 + t) := by
    omega
  rw [hf]
  cases oc with
  | false =>
    simp only [Bool.false_eq_true, if_false, decodeTriplet]
    have hb : (128 + (120 + t)) % 128 = 120 + t := by omega
    rw [hb, if_pos ⟨by omega, by omega⟩]
    have hoc : decide (128 + (120 + t) < 128) = false := by simp
    rw [hoc, hq2, hq42, hdx, hdy, hA, hB, hsx, hsy, tsgn_natAbs, tsgn_natAbs]
  | true =>
    simp only [if_true, decodeTriplet]
    have hb : (0 + (120 + t)) % 128 = 120 + t := by omega
    rw [hb, if_pos ⟨by omega, by omega⟩]
    have hoc : decide (0 + (120 + t) < 128) = true := by
      simp
      omega
    rw [hoc, hq2, hq42, hdx, hdy, hA, hB, hsx, hsy, tsgn_natAbs, tsgn_natAbs]

theorem decode_class6 (oc : Bool) (x y : Int)
    (hx : x.natAbs < 65536) (hy : y.natAbs < 65536) :
    decodeTriplet
      [(if oc then 0 else 128) + 124 +
        ((if 0 < x then 1 else 0) + 2 * (if 0 < y then 1 else 0))]
      [x.natAbs >>> 8, x.natAbs &&& 0xff, y.natAbs >>> 8, y.natAbs &&& 0xff] =
      some (x, y, oc) := by
  set A := x.natAbs with hA
  set B := y.natAbs with hB
  set sx : Nat := if 0 < x then 1 else 0 with hsx
  set sy : Nat := if 0 < y then 1 else 0 with hsy
  have hsx1 : sx ≤ 1 := by rw [hsx]; split <;> omega
  have hsy1 : sy ≤ 1 := by rw [hsy]; split <;> omega
  have e1 : A >>> 8 = A / 256 := by rw [Nat.shiftRight_eq_div_pow]
  have e2 : B >>> 8 = B / 256 := by rw [Nat.shiftRight_eq_div_pow]
  have e3 : A &&& 0xff = A % 256 := and_0xff_eq A
  have e4 : B &&& 0xff = B % 256 := and_0xff_eq B
  rw [e1, e2, e3, e4]
  set t := sx + 2 * sy with ht
  have htb : t ≤ 3 := by rw [ht]; omega
  have hq2 : (124 + t - 124) % 2 = sx := by omega
  have hq42 : (124 + t - 124) % 4 / 2 = sy := by omega
  have hdx : 256 * (A / 256) + A % 256 = A := by omega
  have hdy : 256 * (B / 256) + B % 256 = B := by omega
  have hf : (if oc then 0 else 128) + 124 + t = (if oc then 0 else 128) + (124 + t) := by
    omega
  rw [hf]
  cases oc with
  | false =>
    simp only [Bool.false_eq_true, if_false, decodeTriplet]
    have hb : (128 + (124 + t)) % 128 = 124 + t := by omega
    rw [hb, if_pos (by omega)]
    have hoc : decide (128 + (124 + t) < 128) = false := by simp
    rw [hoc, hq2, hq42, hdx, hdy, hA, hB, hsx, hsy, tsgn_natAbs, tsgn_natAbs]
  | true =>
    simp only [if_true, decodeTriplet]
    have hb : (0 + (124 + t)) % 128 = 124 + t := by omega
    rw [hb, if_pos (by omega)]
    have hoc : decide (0 + (124 + t) < 128) = true := by
      simp
      omega
    rw [hoc, hq2, hq42, hdx, hdy, hA, hB, hsx, hsy, tsgn_natAbs, tsgn_natAbs]

/-- C6: for every (dx, dy) with |dx| < 4096 and |dy| < 4096, either sign,
and either onCurve value, decoding the (flagByte, dataBytes) pair that
`packTriplet` produces recovers exactly (dx, dy, onCurve). -/
theorem packTriplet_roundtrip (x y : Int) (oc : Bool)
    (hx : x.natAbs < 4096) (hy : y.natAbs < 4096) :
    ∃ p, packTriplet x y oc = some p ∧ decodeTriplet p.1 p.2 = some (x, y, oc) := by
  by_cases h1 : x = 0 ∧ y.natAbs < 1280
  · have hpk : packTriplet x y oc = some
        ([(if oc then 0 else 128) + ((y.natAbs &&& 0xf00) >>> 7) +
            (if 0 < y then 1 else 0)], [y.natAbs &&& 0xff]) := by
      simp only [packTriplet]
      rw [if_pos h1]
    refine ⟨_, hpk, ?_⟩
    obtain ⟨hx0, hy0⟩ := h1
    subst hx0
    exact decode_class1 oc y hy0
  · by_cases h2 : y = 0 ∧ x.natAbs < 1280
    · have hpk : packTriplet x y oc = some
          ([(if oc then 0 else 128) + 10 + ((x.natAbs &&& 0xf00) >>> 7) +
              (if 0 < x then 1 else 0)], [x.natAbs &&& 0xff]) := by
        simp only [packTriplet]
        rw [if_neg h1, if_pos h2]
      refine ⟨_, hpk, ?_⟩
      obtain ⟨hy0, hx0⟩ := h2
      subst hy0
      exact decode_class2 oc x hx0
    · by_cases h3 : x.natAbs < 65 ∧ y.natAbs < 65
      · have hx1 : 1 ≤ x.natAbs := by
          rcases Nat.eq_zero_or_pos x.natAbs with h0 | hp
          · exfalso
            exact h1 ⟨Int.natAbs_eq_zero.mp h0, by omega⟩
          · exact hp
        have hy1 : 1 ≤ y.natAbs := by
          rcases Nat.eq_zero_or_pos y.natAbs with h0 | hp
          · exfalso
            exact h2 ⟨Int.natAbs_eq_zero.mp h0, by omega⟩
          · exact hp
        have hpk : packTriplet x y oc = some
            ([(if oc then 0 else 128) + 20 + ((x.natAbs - 1) &&& 0x30) +
                (((y.natAbs - 1) &&& 0x30) >>> 2) +
                ((if 0 < x then 1 else 0) + 2 * (if 0 < y then 1 else 0))],
              [(((x.natAbs - 1) &&& 0xf) <<< 4) ||| ((y.natAbs - 1) &&& 0xf)]) := by
          simp only [packTriplet]
          rw [if_neg h1, if_neg h2, if_pos h3]
        exact ⟨_, hpk, decode_class3 oc x y hx1 h3.1 hy1 h3.2⟩
      · by_cases h4 : x.natAbs < 769 ∧ y.natAbs < 769
        · have hx1 : 1 ≤ x.natAbs := by
            rcases Nat.eq_zero_or_pos x.natAbs with h0 | hp
            · exfalso
              exact h1 ⟨Int.natAbs_eq_zero.mp h0, by omega⟩
            · exact hp
          have hy1 : 1 ≤ y.natAbs := by
            rcases Nat.eq_zero_or_pos y.natAbs with h0 | hp
            · exfalso
              exact h2 ⟨Int.natAbs_eq_zero.mp h0, by omega⟩
            · exact hp
          have hpk : packTriplet x y oc = some
              ([(if oc then 0 else 128) + 84 +
                  12 * (((x.natAbs - 1) &&& 0x300) >>> 8) +
                  (((y.natAbs - 1) &&& 0x300) >>> 6) +
                  ((if 0 < x then 1 else 0) + 2 * (if 0 < y then 1 else 0))],
                [(x.natAbs - 1) &&& 0xff, (y.natAbs - 1) &&& 0xff]) := by
            simp only [packTriplet]
            rw [if_neg h1, if_neg h2, if_neg h3, if_pos h4]
          exact ⟨_, hpk, decode_class4 oc x y hx1 h4.1 hy1 h4.2⟩
        · have hpk : packTriplet x y oc = some
              ([(if oc then 0 else 128) + 120 +
                  ((if 0 < x then 1 else 0) + 2 * (if 0 < y then 1 else 0))],
                [x.natAbs >>> 4, ((x.natAbs &&& 0xf) <<< 4) ||| (y.natAbs >>> 8),
                  y.natAbs &&& 0xff]) := by
            simp only [packTriplet]
            rw [if_neg h1, if_neg h2, if_neg h3, if_neg h4, if_pos ⟨hx, hy⟩]
          exact ⟨_, hpk, decode_class5 oc x y hx hy⟩

/-- C4 corrected: `packTriplet` picks the first matching of its magnitude
classes in order; every (dx, dy) outside classes (1)-(4) with
|dx|, |dy| < 4096 is emitted in the 12-bit-per-axis representation
(flag byte's low 7 bits in 120..123, 3 data bytes), and outside that
range (below 65536) in a 16-bit-per-axis representation (low 7 bits in
124..127, 4 data bytes). -/
theorem packTriplet_fallback_spec (x y : Int) (oc : Bool)
    (h1 : ¬(x = 0 ∧ y.natAbs < 1280)) (h2 : ¬(y = 0 ∧ x.natAbs < 1280))
    (h3 : ¬(x.natAbs < 65 ∧ y.natAbs < 65))
    (h4 : ¬(x.natAbs < 769 ∧ y.natAbs < 769)) :
    (x.natAbs < 4096 ∧ y.natAbs < 4096 →
      ∃ fb db, packTriplet x y oc = some ([fb], db) ∧ db.length = 3 ∧
        120 ≤ fb % 128 ∧ fb % 128 < 124) ∧
    (¬(x.natAbs < 4096 ∧ y.natAbs < 4096) →
      x.natAbs < 65536 → y.natAbs < 65536 →
      ∃ fb db, packTriplet x y oc = some ([fb], db) ∧ db.length = 4 ∧
        124 ≤ fb % 128 ∧ fb % 128 < 128) := by
  have hsx : (if 0 < x then (1:Nat) else 0) ≤ 1 := by split <;> omega
  have hsy : (if 0 < y then (1:Nat) else 0) ≤ 1 := by split <;> omega
  constructor
  · intro h5
    refine ⟨(if oc then 0 else 128) + 120 +
        ((if 0 < x then 1 else 0) + 2 * (if 0 < y then 1 else 0)),
      [x.natAbs >>> 4, ((x.natAbs &&& 0xf) <<< 4) ||| (y.natAbs >>> 8),
        y.natAbs &&& 0xff], ?_, rfl, ?_, ?_⟩
    · simp only [packTriplet]
      rw [if_neg h1, if_neg h2, if_neg h3, if_neg h4, if_pos h5]
    · cases oc with
      | false =>
        simp only [Bool.false_eq_true, if_false]
        omega
      | true =>
        simp only [if_true]
        omega
    · cases oc with
      | false =>
        simp only [Bool.false_eq_true, if_false]
        omega
      | true =>
        simp only [if_true]
        omega
  · intro h5 hx6 hy6
    refine ⟨(if oc then 0 else 128) + 124 +
        ((if 0 < x then 1 else 0) + 2 * (if 0 < y then 1 else 0)),
      [x.natAbs >>> 8, x.natAbs &&& 0xff, y.natAbs >>> 8, y.natAbs &&& 0xff],
      ?_, rfl, ?_, ?_⟩
    · simp only [packTriplet]
      rw [if_neg h1, if_neg h2, if_neg h3, if_neg h4, if_neg h5, if_pos ⟨hx6, hy6⟩]
    · cases oc with
      | false =>
        simp only [Bool.false_eq_true, if_false]
        omega
      | true =>
        simp only [if_true]
        omega
    · cases oc with
      | false =>
        simp only [Bool.false_eq_true, if_false]
        omega
      | true =>
        simp only [if_true]
        omega

/-- C4 is false as stated: (dx, dy) = (4096, 0) matches none of classes
(1)-(4) yet is emitted in the 16-bit-per-axis representation (flag byte
125, low 7 bits 125 ≥ 124, four data bytes), not the 12-bit one. -/
theorem packTriplet_fallback_counterexample :
    ¬((4096 : Int) = 0 ∧ (0 : Int).natAbs < 1280) ∧
    ¬((0 : Int) = 0 ∧ (4096 : Int).natAbs < 1280) ∧
    ¬((4096 : Int).natAbs < 65 ∧ (0 : Int).natAbs < 65) ∧
    ¬((4096 : Int).natAbs < 769 ∧ (0 : Int).natAbs < 769) ∧
    packTriplet 4096 0 true = some ([125], [16, 0, 0, 0]) ∧
    ([16, 0, 0, 0] : List Nat).length = 4 ∧ 124 ≤ 125 % 128 := by
  refine ⟨?_, ?_, ?_, ?_, ?_, ?_, ?_⟩ <;> decide

/-- Witness for C6 at (dx, dy) = (3, -5), on-curve. -/
theorem packTriplet_roundtrip_witness :
    ∃ p, packTriplet 3 (-5) true = some p ∧
      decodeTriplet p.1 p.2 = some (3, -5, true) :=
  packTriplet_roundtrip 3 (-5) true (by decide) (by decide)

/-- Witness for C4's corrected theorem at (dx, dy) = (800, 3). -/
theorem packTriplet_fallback_spec_witness :
    ((800 : Int).natAbs < 4096 ∧ (3 : Int).natAbs < 4096 →
      ∃ fb db, packTriplet 800 3 true = some ([fb], db) ∧ db.length = 3 ∧
        120 ≤ fb % 128 ∧ fb % 128 < 124) ∧
    (¬((800 : Int).natAbs < 4096 ∧ (3 : Int).natAbs < 4096) →
      (800 : Int).natAbs < 65536 → (3 : Int).natAbs < 65536 →
      ∃ fb db, packTriplet 800 3 true = some ([fb], db) ∧ db.length = 4 ∧
        124 ≤ fb % 128 ∧ fb % 128 < 128) :=
  packTriplet_fallback_spec 800 3 true (by decide) (by decide) (by decide)
    (by decide)

/-- Witness for C5 at n = 300. -/
theorem packBase128_roundtrip_witness :
    decodeBase128 (packBase128 300 false) = 300 ∧
    (packBase128 300 false).length ≤ 5 ∧
    (∀ b, (packBase128 300 false).head? = some b →
      1 < (packBase128 300 false).length → b &&& 0x7f ≠ 0) ∧
    packBase128 300 true = 0x80 :: packBase128 300 false :=
  packBase128_roundtrip 300 (by norm_num)

theorem dirLE_tag_le (a b : TableEntry) (h : dirLE a b) : a.tag ≤ b.tag := by
  unfold dirLE dirKey at h
  rw [Prod.Lex.le_iff] at h
  rcases h with h | ⟨h, _⟩
  · exact le_of_lt h
  · exact le_of_eq h

/-- C8: with isCollection=False, `packTestDirectory` emits the directory
entries sorted in ascending byte order of their 4-character tags,
independent of the input order (output invariant under permutation);
with isCollection=True it emits the entries exactly in the
caller-supplied order. -/
theorem packTestDirectory_ordering (d1 d2 : List TableEntry)
    (kt : List (List Nat)) (stl bug : Bool) (hperm : d1.Perm d2) :
    packTestDirectory d1 kt stl false false bug =
      packTestDirectory d2 kt stl false false bug ∧
    (List.insertionSort dirLE d1).Pairwise (fun a b => a.tag ≤ b.tag) ∧
    packTestDirectory d1 kt stl false false bug =
      (do
        let parts ← (List.insertionSort dirLE d1).mapM (packDirEntry kt stl bug)
        pure parts.join) ∧
    packTestDirectory d1 kt stl true false bug =
      (do
        let parts ← d1.mapM (packDirEntry kt stl bug)
        pure parts.join) := by
  have hsorteq : List.insertionSort dirLE d1 = List.insertionSort dirLE d2 := by
    have hs1 : List.Sorted dirLE (List.insertionSort dirLE d1) :=
      List.sorted_insertionSort _ _
    have hs2 : List.Sorted dirLE (List.insertionSort dirLE d2) :=
      List.sorted_insertionSort _ _
    exact List.eq_of_perm_of_sorted
      ((List.perm_insertionSort _ d1).trans
        (hperm.trans (List.perm_insertionSort _ d2).symm)) hs1 hs2
  refine ⟨?_, ?_, ?_, ?_⟩
  · simp only [packTestDirectory, Bool.false_eq_true, if_false, hsorteq]
  · exact (List.sorted_insertionSort dirLE d1).imp
      (fun h => dirLE_tag_le _ _ h)
  · simp only [packTestDirectory, Bool.false_eq_true, if_false, pure_bind]
  · simp only [packTestDirectory, Bool.false_eq_true, if_false, if_true, pure_bind]

theorem indexOf_first {α : Type _} [DecidableEq α] (l : List α) (a : α) (h : a ∈ l) :
    l.get? (l.indexOf a) = some a ∧ ∀ j < l.indexOf a, l.get? j ≠ some a := by
  induction l with
  | nil => cases h
  | cons x t ih =>
    rw [List.indexOf_cons]
    by_cases hx : x = a
    · simp [hx]
    · have hbeq : (x == a) = false := by
        simp [hx]
      rw [hbeq]
      simp only [cond_false]
      have hmem : a ∈ t := by
        rcases List.mem_cons.mp h with h1 | h1
        · exact absurd h1.symm hx
        · exact h1
      obtain ⟨ih1, ih2⟩ := ih hmem
      refine ⟨?_, ?_⟩
      · simpa using ih1
      · intro j hj
        cases j with
        | zero =>
          simp only [List.get?_cons_zero]
          exact fun hc => hx (Option.some_inj.mp hc)
        | succ j =>
          simp only [List.get?_cons_succ]
          exact ih2 j (by omega)

theorem addFontTables_prefix (font : List CollTableEntry) :
    ∀ td, ∃ s, (addFontTables td font).1 = td ++ s := by
  induction font with
  | nil => intro td; exact ⟨[], by simp [addFontTables]⟩
  | cons e rest ih =>
    intro td
    simp only [addFontTables]
    by_cases he : e ∈ td
    · rw [if_pos he]
      exact ih td
    · rw [if_neg he]
      obtain ⟨s, hs⟩ := ih (td ++ [e])
      exact ⟨[e] ++ s, by rw [hs, List.append_assoc]⟩

theorem addFontTables_records (font : List CollTableEntry) :
    ∀ td, ∀ p ∈ (addFontTables td font).2,
      (addFontTables td font).1.get? p.2 = some p.1 ∧
      ∀ j < p.2, (addFontTables td font).1.get? j ≠ some p.1 := by
  induction font with
  | nil => intro td p hp; cases hp
  | cons e rest ih =>
    intro td p hp
    simp only [addFontTables] at hp ⊢
    set td2 := if e ∈ td then td else td ++ [e] with htd2
    have hmem : e ∈ td2 := by
      rw [htd2]
      by_cases he : e ∈ td
      · rw [if_pos he]; exact he
      · rw [if_neg he]; simp
    obtain ⟨hfix, hmin⟩ := indexOf_first td2 e hmem
    have hidxlt : td2.indexOf e < td2.length := List.indexOf_lt_length.mpr hmem
    obtain ⟨s, hs⟩ := addFontTables_prefix rest td2
    rcases List.mem_cons.mp hp with h1 | h1
    · subst h1
      refine ⟨?_, ?_⟩
      · rw [hs, List.get?_append hidxlt]
        exact hfix
      · intro j hj
        rw [hs, List.get?_append (by omega)]
        exact hmin j hj
    · exact ih td2 p h1

theorem addFontTables_fold (font : List CollTableEntry) :
    ∀ td, (addFontTables td font).1 =
      font.foldl (fun acc e => if e ∈ acc then acc else acc ++ [e]) td := by
  induction font with
  | nil => intro td; rfl
  | cons e rest ih =>
    intro td
    simp only [addFontTables, List.foldl_cons]
    exact ih _

theorem collectFonts_prefix (fonts : List (List CollTableEntry)) :
    ∀ td, ∃ s, (collectFonts td fonts).1 = td ++ s := by
  induction fonts with
  | nil => intro td; exact ⟨[], by simp [collectFonts]⟩
  | cons f rest ih =>
    intro td
    simp only [collectFonts]
    obtain ⟨s1, hs1⟩ := addFontTables_prefix f td
    obtain ⟨s2, hs2⟩ := ih (addFontTables td f).1
    exact ⟨s1 ++ s2, by rw [hs2, hs1, List.append_assoc]⟩

theorem collectFonts_records (fonts : List (List CollTableEntry)) :
    ∀ td, ∀ dir ∈ (collectFonts td fonts).2, ∀ p ∈ dir,
      (collectFonts td fonts).1.get? p.2 = some p.1 ∧
      ∀ j < p.2, (collectFonts td fonts).1.get? j ≠ some p.1 := by
  induction fonts with
  | nil => intro td dir hdir; cases hdir
  | cons f rest ih =>
    intro td dir hdir p hp
    simp only [collectFonts] at hdir ⊢
    obtain ⟨s2, hs2⟩ := collectFonts_prefix rest (addFontTables td f).1
    rcases List.mem_cons.mp hdir with h1 | h1
    · subst h1
      obtain ⟨hfix, hmin⟩ := addFontTables_records f td p hp
      have hlt : p.2 < (addFontTables td f).1.length := by
        rcases List.get?_eq_some.mp hfix with ⟨hl, _⟩
        exact hl
      refine ⟨?_, ?_⟩
      · rw [hs2, List.get?_append hlt]
        exact hfix
      · intro j hj
        rw [hs2, List.get?_append (by omega)]
        exact hmin j hj
    · exact ih (addFontTables td f).1 dir h1 p hp

theorem collectFonts_fold (fonts : List (List CollTableEntry)) :
    ∀ td, (collectFonts td fonts).1 =
      (fonts.join).foldl (fun acc e => if e ∈ acc then acc else acc ++ [e]) td := by
  induction fonts with
  | nil => intro td; rfl
  | cons f rest ih =>
    intro td
    simp only [collectFonts, List.join_cons, List.foldl_append]
    rw [ih, addFontTables_fold]

theorem firstSeen_step_nodup (l : List CollTableEntry) :
    ∀ td : List CollTableEntry, td.Nodup →
      (l.foldl (fun acc e => if e ∈ acc then acc else acc ++ [e]) td).Nodup := by
  induction l with
  | nil => intro td h; exact h
  | cons e rest ih =>
    intro td h
    simp only [List.foldl_cons]
    by_cases he : e ∈ td
    · rw [if_pos he]
      exact ih td h
    · rw [if_neg he]
      refine ih _ (List.Nodup.append h (List.nodup_singleton e) ?_)
      intro a ha hb
      rw [List.mem_singleton] at hb
      subst hb
      exact he ha

/-- C9 corrected: without the MismatchGlyfLoca flag, the deduplicated
table list is built in first-seen order without duplicates, and every
font's collection-directory record maps its entry to the index of the
first occurrence of that whole `[tag, (origData, transformedData)]`
element in the shared list (not of the (tag, transformed-bytes) pair):
fonts with byte-identical original and transformed data for a tag
always share an index, and entries with different tags never share
one. -/
theorem getWOFFCollectionData_dedup (fonts : List (List CollTableEntry)) :
    (getWOFFCollectionShared fonts).1 = firstSeenDedup fonts.join ∧
    (getWOFFCollectionShared fonts).1.Nodup ∧
    (∀ dir ∈ (getWOFFCollectionShared fonts).2, ∀ p ∈ dir,
      (getWOFFCollectionShared fonts).1.get? p.2 = some p.1 ∧
      ∀ j < p.2, (getWOFFCollectionShared fonts).1.get? j ≠ some p.1) ∧
    (∀ d1 ∈ (getWOFFCollectionShared fonts).2, ∀ d2 ∈ (getWOFFCollectionShared fonts).2,
      ∀ p ∈ d1, ∀ q ∈ d2,
        (p.1 = q.1 → p.2 = q.2) ∧ (p.1.tag ≠ q.1.tag → p.2 ≠ q.2)) := by
  have hrec := collectFonts_records fonts []
  refine ⟨?_, ?_, hrec, ?_⟩
  · unfold getWOFFCollectionShared firstSeenDedup
    exact collectFonts_fold fonts []
  · unfold getWOFFCollectionShared
    rw [collectFonts_fold fonts []]
    exact firstSeen_step_nodup _ [] List.nodup_nil
  · intro d1 hd1 d2 hd2 p hp q hq
    obtain ⟨hp1, hp2⟩ := hrec d1 hd1 p hp
    obtain ⟨hq1, hq2⟩ := hrec d2 hd2 q hq
    constructor
    · intro heq
      by_contra hne
      rcases Nat.lt_or_ge p.2 q.2 with h | h
      · exact hq2 p.2 h (heq ▸ hp1)
      · have h2 : q.2 < p.2 := by omega
        exact hp2 q.2 h2 (heq ▸ hq1)
    · intro htag heq2
      rw [heq2] at hp1
      rw [hp1, Option.some_inj] at hq1
      exact htag (by rw [hq1])

/-- Witness for C8 at a two-entry directory given in both orders. -/
theorem packTestDirectory_ordering_witness :
    (packTestDirectory [dirEntryHead, dirEntryGlyf] knownTableTags false false
        false false =
      packTestDirectory [dirEntryGlyf, dirEntryHead] knownTableTags false false
        false false) ∧
    (List.insertionSort dirLE [dirEntryHead, dirEntryGlyf]).Pairwise
      (fun a b => a.tag ≤ b.tag) ∧
    packTestDirectory [dirEntryHead, dirEntryGlyf] knownTableTags false false
        false false =
      (do
        let parts ← (List.insertionSort dirLE [dirEntryHead, dirEntryGlyf]).mapM
          (packDirEntry knownTableTags false false)
        pure parts.join) ∧
    packTestDirectory [dirEntryHead, dirEntryGlyf] knownTableTags false true
        false false =
      (do
        let parts ← [dirEntryHead, dirEntryGlyf].mapM
          (packDirEntry knownTableTags false false)
        pure parts.join) :=
  packTestDirectory_ordering [dirEntryHead, dirEntryGlyf]
    [dirEntryGlyf, dirEntryHead] knownTableTags false false (by decide)

/-- C9 is false as stated: the shared-table identity is the whole
`[tag, (origData, transformedData)]` element, not the (tag,
transformed-bytes) pair.  Two fonts whose `loca` tables both transform
to zero bytes but differ in original bytes get two distinct shared
slots (indices 0 and 1) although tag and transformed bytes coincide. -/
theorem getWOFFCollectionData_dedup_counterexample :
    collEntryLocaA.tag = collEntryLocaB.tag ∧
    collEntryLocaA.transformedData = collEntryLocaB.transformedData ∧
    getWOFFCollectionShared [[collEntryLocaA], [collEntryLocaB]] =
      ([collEntryLocaA, collEntryLocaB],
       [[(collEntryLocaA, 0)], [(collEntryLocaB, 1)]]) := by
  refine ⟨rfl, rfl, ?_⟩
  decide

end Woff2
